import Mathlib

/-!
# Verification of the bob-build Android.mk backend core

Shallow embedding, in Lean 4, of the parts of the bob-build sources relevant
to the frozen claims:

* the Android.mk orderer (`androidMkOrderer.GenerateBuildActions`),
* the late-template engine (`late_template.go`, `template.go`),
* the library/binary fragment emitter (`androidLibraryBuildAction`),
* the Android name mapper (`mapAndroidNames`),
* `pathToModuleName`.

Go strings are Lean `String`s; Go slices are Lean `List`s; Go maps are
association lists; functions that call `utils.Die` (which aborts the process)
are embedded as `Except String` values whose `.error` carries the diagnostic.
All definitions are structural (fuel is used where the Go recursion is not
structural) so that every function evaluates inside the kernel.
-/

namespace Bob

/-! ## Basic string helpers

Lean counterparts of the Go standard-library helpers the sources use
(`strings.Join`, `strings.Replace`), defined over `List Char` so that the
kernel can evaluate them.
-/

/-- Does `pat` occur at the start of `s`? (Counterpart of a prefix test on
Go strings, written out on `List Char`.) -/
def listStartsWith : List Char → List Char → Bool
  | [], _ => true
  | _ :: _, [] => false
  | p :: ps, c :: cs => p == c && listStartsWith ps cs

/-- Concatenate a list of strings (Go `+=` accumulation of strings). -/
def strJoin : List String → String
  | [] => ""
  | s :: rest => s ++ strJoin rest

/-- `strings.Join(list, sep)`. -/
def strIntercalate (sep : String) : List String → String
  | [] => ""
  | [s] => s
  | s :: rest => s ++ sep ++ strIntercalate sep rest

/-- One pass of `strings.Replace(s, old, new, -1)` over the characters,
with explicit fuel (the Go loop consumes at least one character per step;
fuel `≥ length` makes the `0` case unreachable).  An empty `old` pattern is
never used by the sources and is left as the identity. -/
def replaceAllFuel (pat rep : List Char) : Nat → List Char → List Char
  | _, [] => []
  | 0, s => s
  | fuel+1, c :: rest =>
    if listStartsWith pat (c :: rest) && !pat.isEmpty then
      rep ++ replaceAllFuel pat rep fuel ((c :: rest).drop pat.length)
    else
      c :: replaceAllFuel pat rep fuel rest

/-- `strings.Replace(s, old, new, -1)`: replace every non-overlapping
occurrence of `old` in `s`, scanning left to right. -/
def stringsReplace (s old new : String) : String :=
  ⟨replaceAllFuel old.data new.data s.data.length s.data⟩

/-- Apply a character-wise substitution to a character list. -/
def substAll (f : Char → List Char) : List Char → List Char
  | [] => []
  | c :: cs => f c ++ substAll f cs

theorem substAll_append (f : Char → List Char) (xs ys : List Char) :
    substAll f (xs ++ ys) = substAll f xs ++ substAll f ys := by
  induction xs with
  | nil => rfl
  | cons c cs ih => simp [substAll, ih]

theorem substAll_substAll (f g : Char → List Char) (cs : List Char) :
    substAll g (substAll f cs) = substAll (fun c => substAll g (f c)) cs := by
  induction cs with
  | nil => rfl
  | cons c cs ih => simp [substAll, substAll_append, ih]

/-- Replacement with a single-character pattern is a character-wise
substitution. -/
theorem replaceAllFuel_single (c : Char) (rep : List Char) :
    ∀ (cs : List Char) (fuel : Nat), cs.length ≤ fuel →
      replaceAllFuel [c] rep fuel cs =
        substAll (fun a => if a = c then rep else [a]) cs := by
  intro cs
  induction cs with
  | nil => intro fuel _; cases fuel <;> rfl
  | cons a rest ih =>
    intro fuel hfuel
    cases fuel with
    | zero => simp at hfuel
    | succ f =>
      have hf : rest.length ≤ f := by
        simpa [Nat.succ_le_succ_iff] using hfuel
      by_cases hac : c = a
      · subst hac
        simp [replaceAllFuel, listStartsWith, substAll, ih f hf]
      · have hca : (c == a) = false := by simp [hac]
        have hac' : ¬ a = c := fun h => hac h.symm
        simp [replaceAllFuel, listStartsWith, hca, substAll, ih f hf, hac']

/-! ## `pathToModuleName` (claim C9)

Embeds `pathToModuleName` from the Android.mk backend: five successive
`strings.Replace` passes. -/

/-- `pathToModuleName` from the Android.mk generator: `/` → `__`, then each
of `.`, `(`, `$`, `)` → `_`. -/
def pathToModuleName (path : String) : String :=
  let p1 := stringsReplace path "/" "__"
  let p2 := stringsReplace p1 "." "_"
  let p3 := stringsReplace p2 "(" "_"
  let p4 := stringsReplace p3 "$" "_"
  stringsReplace p4 ")" "_"

/-- The claim's character-wise description of the rewrite: every `/` becomes
`__` and every `.`, `(`, `)`, `$` becomes `_`. -/
def charSubst (c : Char) : List Char :=
  if c = '/' then ['_', '_']
  else if c = '.' ∨ c = '(' ∨ c = '$' ∨ c = ')' then ['_'] else [c]

theorem stringsReplace_single (s : String) (c : Char) (rep : String) :
    (stringsReplace s ⟨[c]⟩ rep).data =
      substAll (fun a => if a = c then rep.data else [a]) s.data := by
  unfold stringsReplace
  exact replaceAllFuel_single c rep.data s.data s.data.length (Nat.le_refl _)

theorem substAll_congr (f g : Char → List Char) (h : ∀ a, f a = g a)
    (cs : List Char) : substAll f cs = substAll g cs := by
  induction cs with
  | nil => rfl
  | cons c cs ih => simp [substAll, h, ih]

/-- C9 (general part): `pathToModuleName` is exactly the character-wise
substitution `charSubst`. -/
theorem pathToModuleName_eq_substAll (path : String) :
    (pathToModuleName path).data = substAll charSubst path.data := by
  show (stringsReplace (stringsReplace (stringsReplace (stringsReplace
      (stringsReplace path "/" "__") "." "_") "(" "_") "$" "_") ")" "_").data
    = substAll charSubst path.data
  have h1 : ("/" : String) = ⟨['/']⟩ := rfl
  have h2 : ("." : String) = ⟨['.']⟩ := rfl
  have h3 : ("(" : String) = ⟨['(']⟩ := rfl
  have h4 : ("$" : String) = ⟨['$']⟩ := rfl
  have h5 : (")" : String) = ⟨[')']⟩ := rfl
  rw [h5, stringsReplace_single]
  have e4 : (stringsReplace (stringsReplace (stringsReplace
      (stringsReplace path "/" "__") "." "_") "(" "_") "$" "_").data
      = substAll (fun a => if a = '$' then ['_'] else [a])
          (stringsReplace (stringsReplace
            (stringsReplace path "/" "__") "." "_") "(" "_").data := by
    rw [h4, stringsReplace_single]
  rw [e4]
  have e3 : (stringsReplace (stringsReplace
      (stringsReplace path "/" "__") "." "_") "(" "_").data
      = substAll (fun a => if a = '(' then ['_'] else [a])
          (stringsReplace (stringsReplace path "/" "__") "." "_").data := by
    rw [h3, stringsReplace_single]
  rw [e3]
  have e2 : (stringsReplace (stringsReplace path "/" "__") "." "_").data
      = substAll (fun a => if a = '.' then ['_'] else [a])
          (stringsReplace path "/" "__").data := by
    rw [h2, stringsReplace_single]
  rw [e2]
  have e1 : (stringsReplace path "/" "__").data
      = substAll (fun a => if a = '/' then ['_', '_'] else [a]) path.data := by
    rw [h1, stringsReplace_single]
  rw [e1]
  rw [substAll_substAll, substAll_substAll, substAll_substAll, substAll_substAll]
  apply substAll_congr
  intro a
  by_cases ha1 : a = '/'
  · subst ha1; decide
  · by_cases ha2 : a = '.'
    · subst ha2; decide
    · by_cases ha3 : a = '('
      · subst ha3; decide
      · by_cases ha4 : a = '$'
        · subst ha4; decide
        · by_cases ha5 : a = ')'
          · subst ha5; decide
          · simp [substAll, charSubst, ha1, ha2, ha3, ha4, ha5]

/-- C9: for every input path the path-derived module name replaces each `/`
with `__` and each of `.`, `(`, `)`, `$` with `_`; in particular
`a/b/c.conf(2)` rewrites to `a__b__c_conf_2_`. -/
theorem pathToModuleName_claim :
    (∀ path : String, (pathToModuleName path).data = substAll charSubst path.data) ∧
    pathToModuleName "a/b/c.conf(2)" = "a__b__c_conf_2_" :=
  ⟨pathToModuleName_eq_substAll, by decide⟩

/-! ## The Android name mapper (claim C8)

Embeds `mapAndroidNames` and the two process-wide maps
`androidModuleNameMap` (declared name → alt name) and
`androidModuleReverseMap` (alt name → declared name).  Go maps become
association lists; `utils.Die` becomes `Except.error`. -/

/-- Association-list lookup (Go `m[k]` with presence flag). -/
def alookup (l : List (String × String)) (k : String) : Option String :=
  match l with
  | [] => none
  | (k', v) :: rest => if k' = k then some v else alookup rest k

/-- Association-list update (Go `m[k] = v`). -/
def aset (l : List (String × String)) (k v : String) : List (String × String) :=
  match l with
  | [] => [(k, v)]
  | (k', v') :: rest => if k' = k then (k', v) :: rest else (k', v') :: aset rest k v

/-- The two global maps of the Android name mapper. -/
structure NameMaps where
  fwd : List (String × String)
  rev : List (String × String)
deriving DecidableEq

/-- The parts of a module that `mapAndroidNames` inspects. -/
structure NameModule where
  moduleName : String
  altName : String
  isNaming : Bool
  isDefaults : Bool
  enabledAndRequired : Bool
deriving DecidableEq

/-- One run of the `modulemapper` mutator body (`mapAndroidNames`) on a
module, transforming the global maps; a name collision is the
`utils.Die` diagnostic. -/
def mapAndroidNames (st : NameMaps) (m : NameModule) : Except String NameMaps :=
  if m.isNaming then
    if m.isDefaults then .ok st
    else if m.enabledAndRequired then
      match alookup st.rev m.altName with
      | some existing =>
        if existing ≠ m.moduleName then
          .error ("out name collision. Both " ++ m.moduleName ++ " and " ++
            existing ++ " are required and map to " ++ m.altName)
        else
          .ok ⟨aset st.fwd m.moduleName m.altName, aset st.rev m.altName m.moduleName⟩
      | none =>
          .ok ⟨aset st.fwd m.moduleName m.altName, aset st.rev m.altName m.moduleName⟩
    else .ok st
  else .ok st

/-- A sequence of registrations (the mutator pass over all modules). -/
def registerAll (st : NameMaps) : List NameModule → Except String NameMaps
  | [] => .ok st
  | m :: rest =>
    match mapAndroidNames st m with
    | .error e => .error e
    | .ok st' => registerAll st' rest

/-- Consistency of the two maps: every forward entry is backed by the
reverse map. -/
def MapsConsistent (st : NameMaps) : Prop :=
  ∀ d a, alookup st.fwd d = some a → alookup st.rev a = some d

theorem alookup_aset_self (l : List (String × String)) (k v : String) :
    alookup (aset l k v) k = some v := by
  induction l with
  | nil => simp [aset, alookup]
  | cons p rest ih =>
    obtain ⟨pk, pv⟩ := p
    by_cases h : pk = k
    · simp [aset, alookup, h]
    · simp [aset, alookup, h, ih]

theorem alookup_aset_other (l : List (String × String)) (k v k' : String)
    (h : k' ≠ k) : alookup (aset l k v) k' = alookup l k' := by
  induction l with
  | nil => simp [aset, alookup, Ne.symm h]
  | cons p rest ih =>
    obtain ⟨pk, pv⟩ := p
    by_cases hk : pk = k
    · subst hk
      simp [aset, alookup, Ne.symm h]
    · by_cases hk' : pk = k'
      · simp [aset, alookup, hk, hk', h]
      · simp [aset, alookup, hk, hk', ih]

theorem consistent_update (st : NameMaps) (dm am : String)
    (hinv : MapsConsistent st)
    (hrev : alookup st.rev am = none ∨ alookup st.rev am = some dm) :
    MapsConsistent ⟨aset st.fwd dm am, aset st.rev am dm⟩ := by
  intro d a hd
  simp only at hd ⊢
  by_cases hdm : d = dm
  · subst hdm
    rw [alookup_aset_self] at hd
    cases hd
    exact alookup_aset_self _ _ _
  · rw [alookup_aset_other _ _ _ _ hdm] at hd
    by_cases ham : a = am
    · subst ham
      have hda := hinv d a hd
      rcases hrev with hrev | hrev
      · rw [hda] at hrev; cases hrev
      · rw [hda] at hrev
        cases hrev
        exact absurd rfl hdm
    · rw [alookup_aset_other _ _ _ _ ham]
      exact hinv d a hd

theorem mapAndroidNames_consistent (st : NameMaps) (m : NameModule)
    (hinv : MapsConsistent st) (st' : NameMaps)
    (hok : mapAndroidNames st m = .ok st') : MapsConsistent st' := by
  by_cases h1 : m.isNaming
  · by_cases h2 : m.isDefaults
    · simp [mapAndroidNames, h1, h2] at hok
      rw [← hok]; exact hinv
    · by_cases h3 : m.enabledAndRequired
      · cases hrev : alookup st.rev m.altName with
        | some existing =>
          by_cases hex : existing = m.moduleName
          · simp [mapAndroidNames, h1, h2, h3, hrev, hex] at hok
            rw [← hok]
            exact consistent_update st m.moduleName m.altName hinv
              (Or.inr (hex ▸ hrev))
          · simp [mapAndroidNames, h1, h2, h3, hrev, hex] at hok
        | none =>
          simp [mapAndroidNames, h1, h2, h3, hrev] at hok
          rw [← hok]
          exact consistent_update st m.moduleName m.altName hinv (Or.inl hrev)
      · simp [mapAndroidNames, h1, h2, h3] at hok
        rw [← hok]; exact hinv
  · simp [mapAndroidNames, h1] at hok
    rw [← hok]; exact hinv

theorem registerAll_consistent (ms : List NameModule) (st : NameMaps)
    (hinv : MapsConsistent st) (st' : NameMaps)
    (hok : registerAll st ms = .ok st') : MapsConsistent st' := by
  induction ms generalizing st with
  | nil => cases hok; exact hinv
  | cons m rest ih =>
    unfold registerAll at hok
    cases hstep : mapAndroidNames st m with
    | error e => rw [hstep] at hok; cases hok
    | ok st1 =>
      rw [hstep] at hok
      exact ih st1 (mapAndroidNames_consistent st m hinv st1 hstep) hok

/-- C8: the name mapper keeps declared-name → backend-name injective.
(1) Registering an alt name already registered to a different declared name
aborts with a diagnostic naming both declared names and the alt name.
(2) After any successful sequence of registrations starting from the empty
maps, two declared names mapping to the same backend name are equal. -/
theorem mapAndroidNames_injective :
    (∀ (st : NameMaps) (m : NameModule) (existing : String),
      m.isNaming = true → m.isDefaults = false → m.enabledAndRequired = true →
      alookup st.rev m.altName = some existing → existing ≠ m.moduleName →
      mapAndroidNames st m = .error ("out name collision. Both " ++
        m.moduleName ++ " and " ++ existing ++ " are required and map to " ++
        m.altName)) ∧
    (∀ (ms : List NameModule) (st' : NameMaps),
      registerAll ⟨[], []⟩ ms = .ok st' →
      ∀ d₁ d₂ a, alookup st'.fwd d₁ = some a → alookup st'.fwd d₂ = some a →
        d₁ = d₂) := by
  constructor
  · intro st m existing h1 h2 h3 hrev hne
    unfold mapAndroidNames
    rw [h1, h2, h3, hrev]
    simp [hne]
  · intro ms st' hok d₁ d₂ a hd₁ hd₂
    have hinv : MapsConsistent st' := by
      refine registerAll_consistent ms ⟨[], []⟩ ?_ st' hok
      intro d a h
      simp [alookup] at h
    have e₁ := hinv d₁ a hd₁
    have e₂ := hinv d₂ a hd₂
    rw [e₁] at e₂
    cases e₂
    rfl

/-- Witness for C8 at concrete inputs: a collision aborts with the exact
message, and a successful two-module registration is injective. -/
theorem mapAndroidNames_injective_witness :
    mapAndroidNames ⟨[("modA", "liba")], [("liba", "modA")]⟩
        ⟨"modB", "liba", true, false, true⟩ =
      .error "out name collision. Both modB and modA are required and map to liba" ∧
    ("modA" : String) = "modA" := by
  constructor
  · exact mapAndroidNames_injective.1 ⟨[("modA", "liba")], [("liba", "modA")]⟩
      ⟨"modB", "liba", true, false, true⟩ "modA" (by decide) (by decide)
      (by decide) (by decide) (by decide)
  · exact mapAndroidNames_injective.2
      [⟨"modA", "liba", true, false, true⟩, ⟨"modB", "libb", true, false, true⟩]
      ⟨[("modA", "liba"), ("modB", "libb")], [("liba", "modA"), ("libb", "modB")]⟩
      (by rfl) "modA" "modA" "liba" (by rfl) (by rfl)

/-! ## The orderer's topological sort (claims C3, C4)

Embeds the "quick and dirty alphabetical topological sort" loop of
`androidMkOrderer.GenerateBuildActions`.  One Go loop iteration picks
`lowindex` (first entry whose name is smallest among entries with no
remaining deps), emits an include line, removes the picked name from every
dependency list, and deletes the picked entry.  The loop consumes one entry
per iteration, so fuel `order.length` makes the out-of-fuel case
unreachable.  The sort returns the emitted module names in order (the file
content is `include $(BOB_ANDROIDMK_DIR)/<name>.inc` per name); `utils.Die`
is the `.error` case and carries the exact diagnostic string. -/

/-- `androidMkFile`: a module name together with its not-yet-emitted
dependency names. -/
structure MkFile where
  Name : String
  Deps : List String
deriving DecidableEq

/-- Go `<` on strings: lexicographic comparison, written out on the
character lists so that it evaluates in the kernel. -/
def charListLt : List Char → List Char → Bool
  | [], [] => false
  | [], _ :: _ => true
  | _ :: _, [] => false
  | a :: as, b :: bs => if a < b then true else if b < a then false else charListLt as bs

def strLt (a b : String) : Bool := charListLt a.data b.data

/-- The scan for `lowindex`: Go's
`(lowindex == -1 || val.Name < order[lowindex].Name) && len(val.Deps) == 0`,
accumulating the current best index and name. -/
def findLowAux : List MkFile → Nat → Option (Nat × String) → Option (Nat × String)
  | [], _, acc => acc
  | f :: rest, i, acc =>
    let take : Bool :=
      (match acc with
       | none => true
       | some p => strLt f.Name p.2) && f.Deps.isEmpty
    findLowAux rest (i + 1) (if take then some (i, f.Name) else acc)

def findLow (order : List MkFile) : Option (Nat × String) :=
  findLowAux order 0 none

/-- The remaining-modules diagnostic assembled before `utils.Die`. -/
def depsDiagnostic (order : List MkFile) : String :=
  strJoin (order.map fun o =>
    o.Name ++ " depends on\n" ++ strJoin (o.Deps.map fun d => "\t" ++ d ++ "\n"))

/-- The full `utils.Die` message of the orderer. -/
def cycleMessage (order : List MkFile) : String :=
  "unmet or circular dependency. " ++ toString order.length ++ " remaining.\n" ++
    depsDiagnostic order

/-- Remove an emitted name from every dependency list
(`if dep != order[lowindex].Name`). -/
def stripDep (n : String) (order : List MkFile) : List MkFile :=
  order.map fun f => ⟨f.Name, f.Deps.filter (fun d => d ≠ n)⟩

def topoSortFuel : Nat → List MkFile → Except String (List String)
  | _, [] => .ok []
  | 0, _ :: _ => .error ""
  | fuel+1, f :: rest =>
    match findLow (f :: rest) with
    | none => .error (cycleMessage (f :: rest))
    | some (i, n) =>
      match topoSortFuel fuel ((stripDep n (f :: rest)).eraseIdx i) with
      | .ok out => .ok (n :: out)
      | .error e => .error e

/-- The orderer's sort: emitted module names in emission order, or the
`utils.Die` diagnostic. -/
def topoSort (order : List MkFile) : Except String (List String) :=
  topoSortFuel order.length order

/-- The include line written for an emitted module name. -/
def includeLine (n : String) : String :=
  "include $(BOB_ANDROIDMK_DIR)/" ++ n ++ ".inc\n"

theorem findLowAux_some (order : List MkFile) :
    ∀ (k : Nat) (acc : Option (Nat × String)) (i : Nat) (n : String),
      findLowAux order k acc = some (i, n) →
      acc = some (i, n) ∨
        ∃ j f, order.get? j = some f ∧ f.Deps = [] ∧ f.Name = n ∧ i = k + j := by
  induction order with
  | nil => intro k acc i n h; exact Or.inl h
  | cons f rest ih =>
    intro k acc i n h
    simp only [findLowAux] at h
    revert h
    cases hc : ((match acc with
        | none => true
        | some p => strLt f.Name p.2) && f.Deps.isEmpty) with
    | false =>
      intro h
      simp only [Bool.false_eq_true, if_false] at h
      rcases ih (k + 1) acc i n h with hacc | ⟨j, g, hg, hdeps, hname, hi⟩
      · exact Or.inl hacc
      · exact Or.inr ⟨j + 1, g, by simpa using hg, hdeps, hname, by omega⟩
    | true =>
      intro h
      simp only [if_true] at h
      rcases ih (k + 1) _ i n h with hacc | ⟨j, g, hg, hdeps, hname, hi⟩
      · cases hacc
        refine Or.inr ⟨0, f, rfl, ?_, rfl, by omega⟩
        have h2 : f.Deps.isEmpty = true := by
          simp only [Bool.and_eq_true] at hc
          exact hc.2
        exact List.isEmpty_iff.mp h2
      · exact Or.inr ⟨j + 1, g, by simpa using hg, hdeps, hname, by omega⟩

theorem findLowAux_none_of_nonempty (order : List MkFile)
    (hdeps : ∀ f ∈ order, f.Deps ≠ []) :
    ∀ k, findLowAux order k none = none := by
  induction order with
  | nil => intro k; rfl
  | cons f rest ih =>
    intro k
    have hf : f.Deps ≠ [] := hdeps f (List.mem_cons_self _ _)
    have hie : f.Deps.isEmpty = false := by
      cases hfd : f.Deps with
      | nil => exact absurd hfd hf
      | cons a l => simp [List.isEmpty]
    simp only [findLowAux, hie, Bool.and_false, Bool.false_eq_true, if_false]
    exact ih (fun g hg => hdeps g (List.mem_cons_of_mem _ hg)) (k + 1)

theorem mem_eraseIdx_of_ne {α : Type} {x y : α} :
    ∀ (l : List α) (i : Nat), x ∈ l → l.get? i = some y → x ≠ y →
      x ∈ l.eraseIdx i := by
  intro l
  induction l with
  | nil => intro i hx; cases hx
  | cons a rest ih =>
    intro i hx hget hne
    cases i with
    | zero =>
      simp only [List.get?] at hget
      cases hget
      rcases List.mem_cons.mp hx with rfl | hx
      · exact absurd rfl hne
      · simpa [List.eraseIdx] using hx
    | succ j =>
      simp only [List.get?] at hget
      rcases List.mem_cons.mp hx with rfl | hx
      · simp [List.eraseIdx]
      · simp only [List.eraseIdx]
        exact List.mem_cons_of_mem _ (ih j hx hget hne)

theorem stripDep_names (n : String) (order : List MkFile) :
    (stripDep n order).map MkFile.Name = order.map MkFile.Name := by
  simp [stripDep, List.map_map]

theorem stripDep_get? (n : String) (order : List MkFile) (i : Nat) :
    (stripDep n order).get? i =
      (order.get? i).map (fun f => ⟨f.Name, f.Deps.filter (fun d => d ≠ n)⟩) := by
  simp [stripDep, List.get?_eq_getElem?, List.getElem?_map]

/-- Names survive a successful sort: every remaining module's name is
emitted. -/
theorem topoSortFuel_name_mem :
    ∀ (fuel : Nat) (order : List MkFile), order.length ≤ fuel →
      ∀ (out : List String), topoSortFuel fuel order = .ok out →
      ∀ f ∈ order, f.Name ∈ out := by
  intro fuel
  induction fuel with
  | zero =>
    intro order hlen out hout f hf
    cases order with
    | nil => cases hf
    | cons a rest => simp at hlen
  | succ fuel ih =>
    intro order hlen out hout f hf
    cases order with
    | nil => cases hf
    | cons a rest =>
      cases hfl : findLow (a :: rest) with
      | none =>
        simp only [topoSortFuel, hfl] at hout
        cases hout
      | some p =>
        obtain ⟨i, n⟩ := p
        simp only [topoSortFuel, hfl] at hout
        cases hrec : topoSortFuel fuel ((stripDep n (a :: rest)).eraseIdx i) with
        | error e =>
          simp only [hrec] at hout
          cases hout
        | ok out' =>
          simp only [hrec] at hout
          cases hout
          rcases findLowAux_some (a :: rest) 0 none i n hfl with h | ⟨j, g, hg, hgdeps, hgname, hij⟩
          · cases h
          · have hij' : i = j := by omega
            subst hij'
            by_cases hfn : f.Name = n
            · rw [hfn]; exact List.mem_cons_self _ _
            · have hstrip : (⟨f.Name, f.Deps.filter (fun d => d ≠ n)⟩ : MkFile) ∈
                  stripDep n (a :: rest) := by
                exact List.mem_map_of_mem _ hf
              have hget : (stripDep n (a :: rest)).get? i =
                  some ⟨n, []⟩ := by
                rw [stripDep_get?, hg]
                simp [hgdeps, hgname]
              have hmem : (⟨f.Name, f.Deps.filter (fun d => d ≠ n)⟩ : MkFile) ∈
                  (stripDep n (a :: rest)).eraseIdx i := by
                refine mem_eraseIdx_of_ne _ i hstrip hget ?_
                intro hcontra
                exact hfn (congrArg MkFile.Name hcontra)
              have hlen' : ((stripDep n (a :: rest)).eraseIdx i).length ≤ fuel := by
                have hilt : i < (stripDep n (a :: rest)).length := by
                  rcases List.get?_eq_some.mp hget with ⟨h, _⟩
                  exact h
                have h1 : ((stripDep n (a :: rest)).eraseIdx i).length =
                    (stripDep n (a :: rest)).length - 1 := by
                  rw [List.length_eraseIdx, if_pos hilt]
                have h2 : (stripDep n (a :: rest)).length = (a :: rest).length := by
                  simp [stripDep]
                rw [h1, h2]
                simp only [List.length_cons] at hlen ⊢
                omega
              have := ih _ hlen' out' hrec _ hmem
              exact List.mem_cons_of_mem _ this

theorem stripDep_eraseIdx_length_le (n : String) (order : List MkFile)
    (i fuel : Nat) (hi : i < order.length) (hlen : order.length ≤ fuel + 1) :
    ((stripDep n order).eraseIdx i).length ≤ fuel := by
  have h2 : (stripDep n order).length = order.length := by simp [stripDep]
  rw [List.length_eraseIdx, h2, if_pos hi]
  omega

theorem topoSortFuel_dep_precedes :
    ∀ (fuel : Nat) (order : List MkFile), order.length ≤ fuel →
      (order.map MkFile.Name).Nodup →
      ∀ (out : List String), topoSortFuel fuel order = .ok out →
      ∀ M ∈ order, ∀ D ∈ M.Deps,
        D ∈ out ∧ M.Name ∈ out ∧ List.indexOf D out < List.indexOf M.Name out := by
  intro fuel
  induction fuel with
  | zero =>
    intro order hlen hnd out hout M hM D hD
    cases order with
    | nil => cases hM
    | cons a rest => simp at hlen
  | succ fuel ih =>
    intro order hlen hnd out hout M hM D hD
    cases order with
    | nil => cases hM
    | cons a rest =>
      cases hfl : findLow (a :: rest) with
      | none =>
        simp only [topoSortFuel, hfl] at hout
        cases hout
      | some p =>
        obtain ⟨i, n⟩ := p
        simp only [topoSortFuel, hfl] at hout
        cases hrec : topoSortFuel fuel ((stripDep n (a :: rest)).eraseIdx i) with
        | error e =>
          simp only [hrec] at hout
          cases hout
        | ok out' =>
          simp only [hrec] at hout
          cases hout
          rcases findLowAux_some (a :: rest) 0 none i n hfl with
            h0 | ⟨j, f₀, hf₀, hf₀deps, hf₀name, hij⟩
          · cases h0
          · have hij' : i = j := by omega
            subst hij'
            have hilt : i < (a :: rest).length := by
              rcases List.get?_eq_some.mp hf₀ with ⟨hlt, _⟩
              exact hlt
            have hf₀mem : f₀ ∈ (a :: rest) := List.get?_mem hf₀
            have hMne : M ≠ f₀ := by
              intro hEq
              subst hEq
              rw [hf₀deps] at hD
              cases hD
            have hMname : M.Name ≠ n := by
              intro hname
              exact hMne
                (List.inj_on_of_nodup_map hnd hM hf₀mem (by rw [hname, hf₀name]))
            have hget : (stripDep n (a :: rest)).get? i = some ⟨n, []⟩ := by
              rw [stripDep_get?, hf₀]
              simp [hf₀deps, hf₀name]
            have hstrip : (⟨M.Name, M.Deps.filter (fun d => d ≠ n)⟩ : MkFile) ∈
                stripDep n (a :: rest) := List.mem_map_of_mem _ hM
            have hmem : (⟨M.Name, M.Deps.filter (fun d => d ≠ n)⟩ : MkFile) ∈
                (stripDep n (a :: rest)).eraseIdx i := by
              refine mem_eraseIdx_of_ne _ i hstrip hget ?_
              intro hcontra
              exact hMname (congrArg MkFile.Name hcontra)
            have hlen' : ((stripDep n (a :: rest)).eraseIdx i).length ≤ fuel :=
              stripDep_eraseIdx_length_le n (a :: rest) i fuel hilt hlen
            have hnd' : (((stripDep n (a :: rest)).eraseIdx i).map MkFile.Name).Nodup := by
              have hsub := List.eraseIdx_sublist (stripDep n (a :: rest)) i
              have hsub' := List.Sublist.map MkFile.Name hsub
              rw [stripDep_names] at hsub'
              exact List.Nodup.sublist hsub' hnd
            by_cases hDn : D = n
            · subst hDn
              refine ⟨List.mem_cons_self _ _, ?_, ?_⟩
              · have := topoSortFuel_name_mem fuel _ hlen' out' hrec _ hmem
                exact List.mem_cons_of_mem _ this
              · rw [List.indexOf_cons_self, List.indexOf_cons_ne _ (Ne.symm hMname)]
                omega
            · have hD' : D ∈ M.Deps.filter (fun d => d ≠ n) := by
                rw [List.mem_filter]
                exact ⟨hD, by simp [hDn]⟩
              obtain ⟨hD1, hD2, hD3⟩ := ih _ hlen' hnd' out' hrec _ hmem D hD'
              have hD3' : List.indexOf D out' < List.indexOf M.Name out' := hD3
              refine ⟨List.mem_cons_of_mem _ hD1, List.mem_cons_of_mem _ hD2, ?_⟩
              rw [List.indexOf_cons_ne _ (Ne.symm hDn),
                List.indexOf_cons_ne _ (Ne.symm hMname)]
              omega

/-- C3: the orderer emits, among modules with no remaining unemitted
dependencies, the lexicographically smallest first (that is what `topoSort`
computes); consequently for every module `M` of the sorted set with a
dependency `D`, the include line for `D` precedes the include line for `M`
in `Android.inc` (the emitted-name list, of which the include file is the
image under `includeLine`). -/
theorem topoSort_dep_precedes (order : List MkFile)
    (hnd : (order.map MkFile.Name).Nodup) (out : List String)
    (hout : topoSort order = .ok out) (M : MkFile) (hM : M ∈ order)
    (D : String) (hD : D ∈ M.Deps) :
    D ∈ out ∧ M.Name ∈ out ∧ List.indexOf D out < List.indexOf M.Name out :=
  topoSortFuel_dep_precedes order.length order (Nat.le_refl _) hnd out hout M hM D hD

/-- Witness for C3: on `{b ↦ [], a ↦ [b]}` the sort emits `["b", "a"]` and
the dependency `b` precedes `a`. -/
theorem topoSort_dep_precedes_witness :
    ("b" : String) ∈ ["b", "a"] ∧ ("a" : String) ∈ ["b", "a"] ∧
      List.indexOf ("b" : String) ["b", "a"] < List.indexOf ("a" : String) ["b", "a"] :=
  topoSort_dep_precedes [⟨"b", []⟩, ⟨"a", ["b"]⟩] (by decide)
    ["b", "a"] (by rfl) ⟨"a", ["b"]⟩ (by decide) "b" (by decide)

/-! ### The cycle diagnostic (claim C4) -/

/-- `needle` occurs contiguously inside `hay`. -/
def SubSeg (needle hay : List Char) : Prop :=
  ∃ pre post, hay = pre ++ needle ++ post

theorem subSeg_trans {a b c : List Char} (h₁ : SubSeg a b) (h₂ : SubSeg b c) :
    SubSeg a c := by
  obtain ⟨p, q, hb⟩ := h₁
  obtain ⟨r, s, hc⟩ := h₂
  exact ⟨r ++ p, q ++ s, by simp [hc, hb]⟩

theorem subSeg_append_left {needle hay : List Char} (pre : List Char)
    (h : SubSeg needle hay) : SubSeg needle (pre ++ hay) := by
  obtain ⟨p, q, hh⟩ := h
  exact ⟨pre ++ p, q, by simp [hh]⟩

theorem strJoin_subSeg {α : Type} (g : α → String) (l : List α) (x : α)
    (hx : x ∈ l) : SubSeg (g x).data (strJoin (l.map g)).data := by
  induction l with
  | nil => cases hx
  | cons a rest ih =>
    rcases List.mem_cons.mp hx with rfl | hx
    · exact ⟨[], (strJoin (rest.map g)).data, by simp [strJoin, String.data_append]⟩
    · rcases ih hx with ⟨p, q, h⟩
      exact ⟨(g a).data ++ p, q, by simp [strJoin, String.data_append, h]⟩

/-- C4: when a non-empty set of modules remains and none has an empty
remaining dependency list, the orderer aborts with the `utils.Die`
diagnostic, which names every remaining module and each of its unresolved
dependencies; no output list (no `Android.inc`) is produced. -/
theorem topoSort_cycle_diagnostic (order : List MkFile) (hne : order ≠ [])
    (hdeps : ∀ f ∈ order, f.Deps ≠ []) :
    topoSort order = .error (cycleMessage order) ∧
    ∀ f ∈ order, SubSeg f.Name.data (cycleMessage order).data ∧
      ∀ d ∈ f.Deps, SubSeg d.data (cycleMessage order).data := by
  constructor
  · cases order with
    | nil => exact absurd rfl hne
    | cons a rest =>
      have hfl : findLow (a :: rest) = none :=
        findLowAux_none_of_nonempty (a :: rest) hdeps 0
      simp [topoSort, topoSortFuel, hfl]
  · intro f hf
    have hdiag : ∀ s : String,
        SubSeg s.data (strJoin (order.map fun o =>
          o.Name ++ " depends on\n" ++
            strJoin (o.Deps.map fun d => "\t" ++ d ++ "\n"))).data →
        SubSeg s.data (cycleMessage order).data := by
      intro s hs
      have : (cycleMessage order).data =
          ("unmet or circular dependency. " ++ toString order.length ++
            " remaining.\n").data ++ (depsDiagnostic order).data := by
        simp [cycleMessage, String.data_append]
      rw [this]
      exact subSeg_append_left _ hs
    have hentry : SubSeg (f.Name ++ " depends on\n" ++
        strJoin (f.Deps.map fun d => "\t" ++ d ++ "\n")).data
        (strJoin (order.map fun o =>
          o.Name ++ " depends on\n" ++
            strJoin (o.Deps.map fun d => "\t" ++ d ++ "\n"))).data :=
      strJoin_subSeg _ order f hf
    constructor
    · refine hdiag _ (subSeg_trans ?_ hentry)
      exact ⟨[], (" depends on\n" ++
        strJoin (f.Deps.map fun d => "\t" ++ d ++ "\n")).data,
        by simp [String.data_append]⟩
    · intro d hd
      refine hdiag _ (subSeg_trans ?_ hentry)
      have hchunk : SubSeg ("\t" ++ d ++ "\n").data
          (strJoin (f.Deps.map fun x => "\t" ++ x ++ "\n")).data :=
        strJoin_subSeg _ f.Deps d hd
      refine subSeg_trans ?_ (subSeg_trans hchunk ?_)
      · exact ⟨("\t" : String).data, ("\n" : String).data,
          by simp [String.data_append]⟩
      · exact ⟨(f.Name ++ " depends on\n").data, [],
          by simp [String.data_append]⟩

/-- Witness for C4 at the cycle `M1 → M2 → M1`: emission aborts with the
diagnostic. -/
theorem topoSort_cycle_diagnostic_witness :
    topoSort [⟨"M1", ["M2"]⟩, ⟨"M2", ["M1"]⟩] =
      .error (cycleMessage [⟨"M1", ["M2"]⟩, ⟨"M2", ["M1"]⟩]) :=
  (topoSort_cycle_diagnostic [⟨"M1", ["M2"]⟩, ⟨"M2", ["M1"]⟩]
    (by decide) (by decide)).1

/-! ## The orderer's dependency collection (claim C1)

Embeds the `VisitAllModules` / `VisitDepsDepthFirst` part of
`androidMkOrderer.GenerateBuildActions` over a closed module graph.
`generatesAndroidIncFile` is false exactly for `defaults` and
`externalLib` modules.  The per-module emitters (`staticActions`,
`sharedActions`, ... ) run only under `enabledAndRequired`, so a module
writes a `.inc` fragment iff it is of an inc-generating kind *and* enabled
and required (`emitsIncFile` below). -/

inductive OrdKind
  | defaults
  | externalLib
  | normal
deriving DecidableEq

structure OrdModule where
  name : String
  altShortName : String
  isAndroidNaming : Bool
  kind : OrdKind
  enabledAndRequired : Bool
  deps : List String
deriving DecidableEq

structure OrdGraph where
  modules : List OrdModule
deriving DecidableEq

def findOrdModule (g : OrdGraph) (n : String) : Option OrdModule :=
  g.modules.find? (fun m => m.name == n)

/-- `generatesAndroidIncFile` from the source: everything but `defaults`
and `externalLib`. -/
def generatesAndroidIncFile : OrdKind → Bool
  | .defaults => false
  | .externalLib => false
  | .normal => true

/-- blueprint's `VisitDepsDepthFirst`: visit the transitive dependencies,
each exactly once, depth-first, children before parents.  `visited` holds
already-visited names (the root starts visited); the worklist is the list
of dependency names still to expand.  Fuel makes the recursion structural
and is chosen generously by the caller. -/
def visitDF (g : OrdGraph) : Nat → List String → List String → List String × List String
  | 0, visited, _ => (visited, [])
  | _+1, visited, [] => (visited, [])
  | fuel+1, visited, n :: rest =>
    if visited.contains n then visitDF g fuel visited rest
    else
      let res :=
        match findOrdModule g n with
        | none => (n :: visited, [])
        | some m => visitDF g fuel (n :: visited) m.deps
      let res2 := visitDF g fuel res.1 rest
      (res2.1, res.2 ++ n :: res2.2)

/-- Names of the depth-first transitive dependencies of `root`, in visit
order. -/
def visitDepsDepthFirst (g : OrdGraph) (root : OrdModule) : List String :=
  (visitDF g
    (g.modules.length * g.modules.length +
      (g.modules.map (fun m => m.deps.length)).sum + root.deps.length + 1)
    [root.name] root.deps).2

/-- The dependency list the orderer records for a module `m`: the
`VisitDepsDepthFirst` callback appends `child.altShortName` whenever the
child is `androidNaming`, `generatesAndroidIncFile(child)` holds, and —
exactly as written in the Go source — `enabledAndRequired(m)` holds for
the *parent* `m` (not for the visited child). -/
def ordererDepsFor (g : OrdGraph) (m : OrdModule) : List String :=
  (visitDepsDepthFirst g m).filterMap (fun c =>
    match findOrdModule g c with
    | none => none
    | some child =>
      if child.isAndroidNaming && generatesAndroidIncFile child.kind &&
          m.enabledAndRequired then
        some child.altShortName
      else none)

/-- The `order` slice the orderer builds before sorting. -/
def androidMkOrder (g : OrdGraph) : List MkFile :=
  g.modules.filterMap (fun m =>
    if m.isAndroidNaming && m.enabledAndRequired then
      (if generatesAndroidIncFile m.kind then
        some ⟨m.altShortName, ordererDepsFor g m⟩
      else none)
    else none)

/-- A module actually writes a `.inc` fragment: its per-module action runs
(`enabledAndRequired`, checked by `staticActions` etc.) and its kind
generates a fragment. -/
def emitsIncFile (m : OrdModule) : Bool :=
  m.isAndroidNaming && generatesAndroidIncFile m.kind && m.enabledAndRequired

/-- The failing input for C1: enabled module `a` with a single direct
dependency on `b`, which is of an inc-generating kind but disabled
(not enabled-and-required). -/
def c1ModA : OrdModule := ⟨"a", "a_short", true, .normal, true, ["b"]⟩

def c1ModB : OrdModule := ⟨"b", "b_short", true, .normal, false, []⟩

def c1Graph : OrdGraph := ⟨[c1ModA, c1ModB]⟩

/-- C1 (evaluation at the failing input): the orderer records `b_short` in
`a`'s dependency list even though `b` emits no `.inc` fragment — the Go
callback tests `enabledAndRequired(m)` for the parent (always true there)
instead of the child.  The claim says such a child contributes no entry. -/
theorem ordererDeps_includes_disabled_dep :
    ordererDepsFor c1Graph c1ModA = ["b_short"] ∧
    emitsIncFile c1ModB = false ∧
    androidMkOrder c1Graph = [⟨"a_short", ["b_short"]⟩] ∧
    topoSort (androidMkOrder c1Graph) =
      .error (cycleMessage (androidMkOrder c1Graph)) :=
  ⟨by decide, by decide, by decide, by rfl⟩

/-! ## The late-template engine (claims C2, C5, C6)

Embeds `late_template.go` (and the `applyTemplateString` driver of
`template.go`).  A property record is flattened into a list of
(property-name, field) pairs in traversal order; fields are strings, string
slices, or optional strings, matching the three leaf shapes the reflective
walk handles (nested structs flatten into the same list).  Template strings
are parsed into segments: by the time the late pass runs, the early pass
(`template.go`, `matchSrcs` / `filter_compiler_flags`) has rewritten every
late call into the canonical forms `{{match_srcs "arg"}}` and
`{{add_if_supported "flag"}}`, which is what the parser below accepts; a
malformed action is a parse error (`utils.Die`), and a call to a function
absent from the property's funcmap is likewise fatal, as in
`text/template`. -/

def lbrace : Char := Char.ofNat 123

def rbrace : Char := Char.ofNat 125

def quoteChar : Char := Char.ofNat 34

/-- Suffix test on character lists. -/
def listEndsWith (suf l : List Char) : Bool :=
  listStartsWith suf.reverse l.reverse

/-- Modelled from the spec: `utils.IsCompilableSource` (the `utils` package
is not under `src/`); compiled sources are C/C++/assembly files, everything
else (headers, linker scripts, ...) is non-compilable. -/
def IsCompilableSource (s : String) : Bool :=
  listEndsWith ".c".data s.data || listEndsWith ".cc".data s.data ||
  listEndsWith ".cpp".data s.data || listEndsWith ".cxx".data s.data ||
  listEndsWith ".s".data s.data || listEndsWith ".S".data s.data

def IsNotCompilableSource (s : String) : Bool :=
  !IsCompilableSource s

/-- The `matchedNonCompiledSources` map: association list in insertion
order (Go map iteration order is unspecified; this model fixes insertion
order). -/
abbrev Marks := List (String × Bool)

/-- Go `matchedNonCompiledSources[src] = true`. -/
def setMark (marks : Marks) (src : String) : Marks :=
  if marks.any (fun p => p.1 == src) then
    marks.map (fun p => if p.1 == src then (p.1, true) else p)
  else marks ++ [(src, true)]

/-- Go `nonCompiledSources[src] = false` (insert if absent). -/
def addKeyFalse (marks : Marks) (src : String) : Marks :=
  if marks.any (fun p => p.1 == src) then marks else marks ++ [(src, false)]

/-- Modelled from the spec: `pathtools.Match("**/"+arg, src)` (blueprint's
`pathtools` is an external dependency).  For the literal, wildcard-free
patterns these claims exercise, the sources whose tail matches `arg` under
`**/` are exactly `arg` itself and any path ending in `/arg`; a malformed
pattern (the only error case of `pathtools.Match`) cannot arise for
literal arguments. -/
def tailMatch (arg src : String) : Bool :=
  src == arg || listEndsWith ('/' :: arg.data) src.data

/-- Modelled from the spec: `getBackendPathInSourceDir(g, src)` joins the
backend's source directory (`$(LOCAL_PATH)` for Android.mk) with the
module-relative source path. -/
def backendSourcePath (sourceDir src : String) : String :=
  sourceDir ++ "/" ++ src

/-- The environment a late-template run needs: the backend source
directory and the toolchain's `checkFlagIsSupported(language, flag)`. -/
structure LTEnv where
  sourceDir : String
  flagSupported : String → String → Bool

/-- The late-template view of a module: name, resolved source list, the
interface facts the pass queries, and the flattened property record. -/
inductive PropField
  | str (s : String)
  | strList (l : List String)
  | optStr (o : Option String)
deriving DecidableEq

structure LTModule where
  moduleName : String
  sources : List String
  isLibrary : Bool
  hasMatchSrcs : Bool
  matchSrcPropNames : List String
  hasBuildProps : Bool
  featurable : Bool
  props : List (String × PropField)
deriving DecidableEq

/-- `SourceProps.matchSources`: collect the backend paths of the sources
matching the glob, marking each matched source; an empty result is
`utils.Die`. -/
def matchSources (sourceDir : String) (sources : List String)
    (moduleName arg : String) (marks : Marks) :
    Except String (String × Marks) :=
  let r := sources.foldl
    (fun (acc : List String × Marks) src =>
      if tailMatch arg src then
        (acc.1 ++ [backendSourcePath sourceDir src], setMark acc.2 src)
      else acc)
    ([], marks)
  if r.1.isEmpty then
    .error ("Could not match '" ++ arg ++ "' for module '" ++ moduleName ++ "'")
  else
    .ok (strIntercalate " " r.1, r.2)

/-- `SourceProps.initializeNonCompiledSourceMap`: for library modules,
every non-compiled source starts unmatched. -/
def initializeNonCompiledSourceMap (m : LTModule) : Marks :=
  if m.isLibrary then
    (m.sources.filter IsNotCompilableSource).foldl addKeyFalse []
  else []

/-- `verifyMatchSources`: any unmatched non-compiled source is fatal. -/
def verifyMatchSources (marks : Marks) : Except String Unit :=
  match marks.find? (fun p => !p.2) with
  | some p => .error ("Non-compiled source " ++ p.1 ++ " is not used by match_srcs.")
  | none => .ok ()

/-- `checkCompilerFlag`: keep the flag iff some input language supports
it. -/
def checkCompilerFlag (flag : String) (languages : List String)
    (tc : String → String → Bool) : String :=
  if languages.any (fun lang => tc lang flag) then flag else ""

/-! ### The template-string parser -/

/-- A parsed template string: literal text and the two canonical late
calls. -/
inductive Seg
  | lit (s : String)
  | srcsCall (arg : String)
  | addIfCall (flag : String)
deriving DecidableEq

/-- Prepend a character to the first literal segment. -/
def consLit (c : Char) : List Seg → List Seg
  | Seg.lit s :: segs => Seg.lit ⟨c :: s.data⟩ :: segs
  | segs => Seg.lit ⟨[c]⟩ :: segs

/-- Parse one action body (after the opening braces): the function name, a
space, a quoted argument, and the closing braces. -/
def readCall (cs : List Char) : Option (Seg × List Char) :=
  let tryF := fun (fname : String) (mk : String → Seg) =>
    let pre := fname.data ++ [' ', quoteChar]
    if listStartsWith pre cs then
      let rest := cs.drop pre.length
      match rest.findIdx? (fun c => c == quoteChar) with
      | none => none
      | some i =>
        let arg : String := ⟨rest.take i⟩
        let after := rest.drop (i + 1)
        if listStartsWith [rbrace, rbrace] after then
          some (mk arg, after.drop 2)
        else none
    else none
  match tryF "match_srcs" Seg.srcsCall with
  | some r => some r
  | none => tryF "add_if_supported" Seg.addIfCall

/-- Fueled template parse (each step consumes at least one character, so
fuel `≥ length` makes the `0` case unreachable). -/
def parseTF : Nat → List Char → Option (List Seg)
  | _, [] => some []
  | 0, _ :: _ => none
  | fuel+1, c :: rest =>
    if c = lbrace then
      match rest with
      | c2 :: rest2 =>
        if c2 = lbrace then
          match readCall rest2 with
          | none => none
          | some (seg, rest') =>
            match parseTF fuel rest' with
            | none => none
            | some segs => some (seg :: segs)
        else (parseTF fuel rest).map (consLit c)
      | [] => (parseTF fuel []).map (consLit c)
    else (parseTF fuel rest).map (consLit c)

def parseTemplate (s : String) : Option (List Seg) :=
  parseTF s.data.length s.data

/-- Does the string contain a `{{` action opener? -/
def hasOpener : List Char → Bool
  | c1 :: c2 :: rest => (c1 = lbrace && c2 = lbrace) || hasOpener (c2 :: rest)
  | _ => false

/-! ### Rendering (template execution) -/

/-- The funcmap installed for one property: whether `match_srcs` is
available, and the language list of `add_if_supported` when it is. -/
structure FuncSet where
  hasMatchSrcsFn : Bool
  addIfLangs : Option (List String)
deriving DecidableEq

/-- Execute a parsed template left to right, threading the
non-compiled-source marks. -/
def renderSegs (env : LTEnv) (moduleName : String) (sources : List String)
    (fs : FuncSet) : List Seg → Marks → Except String (String × Marks)
  | [], marks => .ok ("", marks)
  | Seg.lit s :: segs, marks =>
    match renderSegs env moduleName sources fs segs marks with
    | .error e => .error e
    | .ok (out, marks') => .ok (s ++ out, marks')
  | Seg.srcsCall arg :: segs, marks =>
    if fs.hasMatchSrcsFn then
      match matchSources env.sourceDir sources moduleName arg marks with
      | .error e => .error e
      | .ok (val, marks1) =>
        match renderSegs env moduleName sources fs segs marks1 with
        | .error e => .error e
        | .ok (out, marks') => .ok (val ++ out, marks')
    else .error "Error parsing string: function \"match_srcs\" not defined"
  | Seg.addIfCall flag :: segs, marks =>
    match fs.addIfLangs with
    | some langs =>
      match renderSegs env moduleName sources fs segs marks with
      | .error e => .error e
      | .ok (out, marks') =>
        .ok (checkCompilerFlag flag langs env.flagSupported ++ out, marks')
    | none => .error "Error parsing string: function \"add_if_supported\" not defined"

/-- `applyTemplateString`: parse then execute one string property. -/
def applyTemplateString (env : LTEnv) (moduleName : String)
    (sources : List String) (fs : FuncSet) (s : String) (marks : Marks) :
    Except String (String × Marks) :=
  match parseTemplate s with
  | none => .error ("Error parsing string '" ++ s ++ "'")
  | some segs => renderSegs env moduleName sources fs segs marks

/-- The property names carrying a late funcmap (`addtoFuncmap` calls in
`setupMatchSources` and `setupAddIfSupported`). -/
def lateProps (m : LTModule) : List String :=
  (if m.hasMatchSrcs then m.matchSrcPropNames else []) ++
  (if m.hasBuildProps then ["Cflags", "Export_cflags", "Cxxflags", "Conlyflags"] else [])

/-- The funcmap for one property name (`propfnmap[propName]`). -/
def funcmapFor (m : LTModule) (prop : String) : Option FuncSet :=
  let hasMs := m.hasMatchSrcs && m.matchSrcPropNames.contains prop
  let langs : Option (List String) :=
    if m.hasBuildProps then
      if prop == "Cflags" || prop == "Export_cflags" then some ["c++", "c"]
      else if prop == "Cxxflags" then some ["c++"]
      else if prop == "Conlyflags" then some ["c"]
      else none
    else none
  if hasMs || langs.isSome then some ⟨hasMs, langs⟩ else none

/-- Expand a string slice, then strip empty components if the expansion
left any empty string behind (`stripEmptyComponents`, modelled from the
spec: remove empty elements). -/
def expandStrList (env : LTEnv) (moduleName : String) (sources : List String)
    (fs : FuncSet) : List String → Marks → Except String (List String × Marks)
  | [], marks => .ok ([], marks)
  | s :: rest, marks =>
    match applyTemplateString env moduleName sources fs s marks with
    | .error e => .error e
    | .ok (s', marks1) =>
      match expandStrList env moduleName sources fs rest marks1 with
      | .error e => .error e
      | .ok (rest', marks') => .ok (s' :: rest', marks')

/-- One case of `applyLateTemplateRecursive`: apply the property's funcmap
(when there is one) to a string field, every element of a slice field, or
a dereferenced optional field. -/
def expandField (env : LTEnv) (moduleName : String) (sources : List String)
    (fs : Option FuncSet) (pf : PropField) (marks : Marks) :
    Except String (PropField × Marks) :=
  match fs with
  | none => .ok (pf, marks)
  | some fs =>
    match pf with
    | .str s =>
      match applyTemplateString env moduleName sources fs s marks with
      | .error e => .error e
      | .ok (s', marks') => .ok (.str s', marks')
    | .strList l =>
      match expandStrList env moduleName sources fs l marks with
      | .error e => .error e
      | .ok (l', marks') =>
        let l'' := if l'.any (fun s => s == "") then l'.filter (fun s => s != "") else l'
        .ok (.strList l'', marks')
    | .optStr none => .ok (.optStr none, marks)
    | .optStr (some s) =>
      match applyTemplateString env moduleName sources fs s marks with
      | .error e => .error e
      | .ok (s', marks') => .ok (.optStr (some s'), marks')

/-- The reflective walk over the flattened property record. -/
def expandProps (env : LTEnv) (m : LTModule) :
    List (String × PropField) → Marks →
    Except String (List (String × PropField) × Marks)
  | [], marks => .ok ([], marks)
  | (nm, pf) :: rest, marks =>
    match expandField env m.moduleName m.sources (funcmapFor m nm) pf marks with
    | .error e => .error e
    | .ok (pf', marks1) =>
      match expandProps env m rest marks1 with
      | .error e => .error e
      | .ok (rest', marks') => .ok ((nm, pf') :: rest', marks')

/-- `applyLateTemplates`: skip non-featurable modules; skip when no late
template applies; otherwise expand every property and verify that every
non-compiled source was consumed. -/
def applyLateTemplates (env : LTEnv) (m : LTModule) :
    Except String (List (String × PropField)) :=
  if !m.featurable then .ok m.props
  else if (lateProps m).isEmpty then .ok m.props
  else
    match expandProps env m m.props (initializeNonCompiledSourceMap m) with
    | .error e => .error e
    | .ok (props', marks') =>
      match verifyMatchSources marks' with
      | .error e => .error e
      | .ok _ => .ok props'

/-! ### `match_srcs` (claim C5) -/

theorem matchSources_foldl (sourceDir arg : String) :
    ∀ (sources : List String) (acc : List String) (marks : Marks),
      sources.foldl
        (fun (acc : List String × Marks) src =>
          if tailMatch arg src then
            (acc.1 ++ [backendSourcePath sourceDir src], setMark acc.2 src)
          else acc)
        (acc, marks) =
      (acc ++ (sources.filter (tailMatch arg)).map (backendSourcePath sourceDir),
       (sources.filter (tailMatch arg)).foldl setMark marks) := by
  intro sources
  induction sources with
  | nil => intro acc marks; simp
  | cons s rest ih =>
    intro acc marks
    cases h : tailMatch arg s with
    | true => simp [List.foldl_cons, h, ih, List.filter_cons]
    | false => simp [List.foldl_cons, h, ih, List.filter_cons]

theorem matchSources_eq (sourceDir : String) (sources : List String)
    (moduleName arg : String) (marks : Marks) :
    matchSources sourceDir sources moduleName arg marks =
      if (sources.filter (tailMatch arg)).isEmpty then
        .error ("Could not match '" ++ arg ++ "' for module '" ++ moduleName ++ "'")
      else
        .ok (strIntercalate " "
            ((sources.filter (tailMatch arg)).map (backendSourcePath sourceDir)),
          (sources.filter (tailMatch arg)).foldl setMark marks) := by
  unfold matchSources
  rw [matchSources_foldl]
  cases hfe : sources.filter (tailMatch arg) with
  | nil => simp
  | cons a l => simp

/-! ### Claim C2: the second run of the late-template pass -/

def c2Env : LTEnv := ⟨"$(LOCAL_PATH)", fun _ _ => true⟩

/-- A library module with one compiled and one non-compiled source whose
`Ldflags` consume the non-compiled source via `match_srcs`. -/
def c2Mod1 : LTModule :=
  ⟨"libfoo", ["a.c", "version.ld"], true, true, ["Ldflags"], false, true,
    [("Ldflags", PropField.strList ["\x7b\x7bmatch_srcs \"version.ld\"\x7d\x7d"])]⟩

/-- The same module after the first late-template run. -/
def c2Mod2 : LTModule :=
  { c2Mod1 with props := [("Ldflags", PropField.strList ["$(LOCAL_PATH)/version.ld"])] }

/-- C2 counterexample: the first run expands `c2Mod1`'s properties to
`c2Mod2`'s, but a second run on the already-expanded module aborts in
`verifyMatchSources` (the expanded `Ldflags` contain no `match_srcs` call
to re-mark `version.ld`), so the pass is not idempotent on modules with
non-compiled sources. -/
theorem applyLateTemplates_second_run_aborts :
    applyLateTemplates c2Env c2Mod1 = .ok c2Mod2.props ∧
    applyLateTemplates c2Env c2Mod2 =
      .error "Non-compiled source version.ld is not used by match_srcs." :=
  ⟨rfl, rfl⟩

/-! ### Marks invariants (for C2 and C6) -/

def marksKeys (marks : Marks) : List String := marks.map Prod.fst

/-- Marks evolve monotonically along the pass: keys are never dropped and
`false` entries are never created. -/
def MarksStep (m1 m2 : Marks) : Prop :=
  (∀ k, k ∈ marksKeys m1 → k ∈ marksKeys m2) ∧
  (∀ k, (k, false) ∈ m2 → (k, false) ∈ m1)

theorem marksStep_refl (m : Marks) : MarksStep m m :=
  ⟨fun _ h => h, fun _ h => h⟩

theorem marksStep_trans {m1 m2 m3 : Marks} (h12 : MarksStep m1 m2)
    (h23 : MarksStep m2 m3) : MarksStep m1 m3 :=
  ⟨fun k h => h23.1 k (h12.1 k h), fun k h => h12.2 k (h23.2 k h)⟩

theorem marksKeys_map_preserve (marks : Marks)
    (g : String × Bool → String × Bool) (hg : ∀ p, (g p).1 = p.1) :
    marksKeys (marks.map g) = marksKeys marks := by
  induction marks with
  | nil => rfl
  | cons p rest ih => simp only [List.map_cons, marksKeys] at ih ⊢; rw [hg p, ih]

theorem setMark_step (marks : Marks) (s : String) :
    MarksStep marks (setMark marks s) := by
  constructor
  · intro k hk
    unfold setMark
    by_cases h : marks.any (fun p => p.1 == s)
    · rw [if_pos h, marksKeys_map_preserve]
      · exact hk
      · intro p
        by_cases hp : p.1 == s <;> simp [hp]
    · rw [if_neg h]
      unfold marksKeys at hk ⊢
      rw [List.map_append]
      exact List.mem_append_left _ hk
  · intro k hk
    unfold setMark at hk
    by_cases h : marks.any (fun p => p.1 == s)
    · rw [if_pos h] at hk
      rcases List.mem_map.mp hk with ⟨p, hp, heq⟩
      by_cases hps : p.1 == s
      · rw [if_pos hps] at heq
        cases heq
      · rw [if_neg hps] at heq
        rw [← heq]
        exact hp
    · rw [if_neg h] at hk
      rcases List.mem_append.mp hk with hk | hk
      · exact hk
      · simp at hk

theorem foldl_setMark_step (l : List String) :
    ∀ marks : Marks, MarksStep marks (l.foldl setMark marks) := by
  induction l with
  | nil => intro marks; exact marksStep_refl _
  | cons s rest ih =>
    intro marks
    exact marksStep_trans (setMark_step marks s) (ih (setMark marks s))

theorem matchSources_step {sourceDir : String} {sources : List String}
    {moduleName arg : String} {marks : Marks} {val : String} {marks' : Marks}
    (h : matchSources sourceDir sources moduleName arg marks = .ok (val, marks')) :
    MarksStep marks marks' := by
  rw [matchSources_eq] at h
  by_cases he : (sources.filter (tailMatch arg)).isEmpty
  · rw [if_pos he] at h; cases h
  · rw [if_neg he] at h
    cases h
    exact foldl_setMark_step _ marks

theorem renderSegs_step (env : LTEnv) (mn : String) (srcs : List String)
    (fs : FuncSet) :
    ∀ (segs : List Seg) (marks : Marks) (out : String) (marks' : Marks),
      renderSegs env mn srcs fs segs marks = .ok (out, marks') →
      MarksStep marks marks' := by
  intro segs
  induction segs with
  | nil =>
    intro marks out marks' h
    cases h
    exact marksStep_refl _
  | cons seg rest ih =>
    intro marks out marks' h
    cases seg with
    | lit s =>
      simp only [renderSegs] at h
      cases hr : renderSegs env mn srcs fs rest marks with
      | error e => simp only [hr] at h; cases h
      | ok p =>
        obtain ⟨o, mk⟩ := p
        simp only [hr] at h
        cases h
        exact ih marks o marks' hr
    | srcsCall arg =>
      simp only [renderSegs] at h
      by_cases hms : fs.hasMatchSrcsFn
      · rw [if_pos hms] at h
        cases hm : matchSources env.sourceDir srcs mn arg marks with
        | error e => simp only [hm] at h; cases h
        | ok p =>
          obtain ⟨val, m1⟩ := p
          simp only [hm] at h
          cases hr : renderSegs env mn srcs fs rest m1 with
          | error e => simp only [hr] at h; cases h
          | ok q =>
            obtain ⟨o, mk⟩ := q
            simp only [hr] at h
            cases h
            exact marksStep_trans (matchSources_step hm) (ih m1 o marks' hr)
      · rw [if_neg hms] at h
        cases h
    | addIfCall flag =>
      simp only [renderSegs] at h
      cases hl : fs.addIfLangs with
      | none => simp only [hl] at h; cases h
      | some langs =>
        simp only [hl] at h
        cases hr : renderSegs env mn srcs fs rest marks with
        | error e => simp only [hr] at h; cases h
        | ok q =>
          obtain ⟨o, mk⟩ := q
          simp only [hr] at h
          cases h
          exact ih marks o marks' hr

theorem applyTemplateString_step {env : LTEnv} {mn : String}
    {srcs : List String} {fs : FuncSet} {s : String} {marks : Marks}
    {out : String} {marks' : Marks}
    (h : applyTemplateString env mn srcs fs s marks = .ok (out, marks')) :
    MarksStep marks marks' := by
  unfold applyTemplateString at h
  cases hp : parseTemplate s with
  | none => rw [hp] at h; cases h
  | some segs =>
    rw [hp] at h
    exact renderSegs_step env mn srcs fs segs marks out marks' h

theorem expandStrList_step (env : LTEnv) (mn : String) (srcs : List String)
    (fs : FuncSet) :
    ∀ (l : List String) (marks : Marks) (l' : List String) (marks' : Marks),
      expandStrList env mn srcs fs l marks = .ok (l', marks') →
      MarksStep marks marks' := by
  intro l
  induction l with
  | nil =>
    intro marks l' marks' h
    cases h
    exact marksStep_refl _
  | cons s rest ih =>
    intro marks l' marks' h
    simp only [expandStrList] at h
    cases hs : applyTemplateString env mn srcs fs s marks with
    | error e => simp only [hs] at h; cases h
    | ok p =>
      obtain ⟨s', m1⟩ := p
      simp only [hs] at h
      cases hr : expandStrList env mn srcs fs rest m1 with
      | error e => simp only [hr] at h; cases h
      | ok q =>
        obtain ⟨r', mk⟩ := q
        simp only [hr] at h
        cases h
        exact marksStep_trans (applyTemplateString_step hs) (ih m1 r' marks' hr)

theorem expandField_step {env : LTEnv} {mn : String} {srcs : List String}
    {fs : Option FuncSet} {pf : PropField} {marks : Marks} {pf' : PropField}
    {marks' : Marks}
    (h : expandField env mn srcs fs pf marks = .ok (pf', marks')) :
    MarksStep marks marks' := by
  unfold expandField at h
  cases fs with
  | none => cases h; exact marksStep_refl _
  | some fs =>
    cases pf with
    | str s =>
      cases hs : applyTemplateString env mn srcs fs s marks with
      | error e => simp only [hs] at h; cases h
      | ok p =>
        obtain ⟨s', mk⟩ := p
        simp only [hs] at h
        cases h
        exact applyTemplateString_step hs
    | strList l =>
      cases hl : expandStrList env mn srcs fs l marks with
      | error e => simp only [hl] at h; cases h
      | ok q =>
        obtain ⟨l', mk⟩ := q
        simp only [hl] at h
        cases h
        exact expandStrList_step env mn srcs fs l marks l' marks' hl
    | optStr o =>
      cases o with
      | none => cases h; exact marksStep_refl _
      | some s =>
        cases hs : applyTemplateString env mn srcs fs s marks with
        | error e => simp only [hs] at h; cases h
        | ok p =>
          obtain ⟨s', mk⟩ := p
          simp only [hs] at h
          cases h
          exact applyTemplateString_step hs

theorem expandProps_step (env : LTEnv) (m : LTModule) :
    ∀ (props : List (String × PropField)) (marks : Marks)
      (props' : List (String × PropField)) (marks' : Marks),
      expandProps env m props marks = .ok (props', marks') →
      MarksStep marks marks' := by
  intro props
  induction props with
  | nil =>
    intro marks props' marks' h
    cases h
    exact marksStep_refl _
  | cons p rest ih =>
    intro marks props' marks' h
    obtain ⟨nm, pf⟩ := p
    simp only [expandProps] at h
    cases hf : expandField env m.moduleName m.sources (funcmapFor m nm) pf marks with
    | error e => simp only [hf] at h; cases h
    | ok q =>
      obtain ⟨pf', m1⟩ := q
      simp only [hf] at h
      cases hr : expandProps env m rest m1 with
      | error e => simp only [hr] at h; cases h
      | ok r =>
        obtain ⟨rest', mk⟩ := r
        simp only [hr] at h
        cases h
        exact marksStep_trans (expandField_step hf) (ih m1 rest' marks' hr)

/-! ### Non-compiled-source accounting (claim C6) -/

theorem marksKeys_mem_iff (marks : Marks) (s : String) :
    marks.any (fun p => p.1 == s) = true ↔ s ∈ marksKeys marks := by
  rw [List.any_eq_true]
  constructor
  · rintro ⟨p, hp, hps⟩
    have : p.1 = s := by simpa using hps
    rw [← this]
    exact List.mem_map_of_mem _ hp
  · intro hs
    rcases List.mem_map.mp hs with ⟨p, hp, hps⟩
    exact ⟨p, hp, by simp [hps]⟩

theorem addKeyFalse_keys_mono (marks : Marks) (s k : String)
    (h : k ∈ marksKeys marks) : k ∈ marksKeys (addKeyFalse marks s) := by
  unfold addKeyFalse
  by_cases hc : marks.any (fun p => p.1 == s)
  · rw [if_pos hc]; exact h
  · rw [if_neg hc]
    unfold marksKeys at h ⊢
    rw [List.map_append]
    exact List.mem_append_left _ h

theorem addKeyFalse_key_self (marks : Marks) (s : String) :
    s ∈ marksKeys (addKeyFalse marks s) := by
  unfold addKeyFalse
  by_cases hc : marks.any (fun p => p.1 == s)
  · rw [if_pos hc]
    exact (marksKeys_mem_iff marks s).mp hc
  · rw [if_neg hc]
    unfold marksKeys
    rw [List.map_append]
    exact List.mem_append_right _ (by simp)

/-- Every source of the filtered list ends up as a key of the initial
non-compiled map. -/
theorem mem_keys_foldl_addKeyFalse (l : List String) :
    ∀ (acc : Marks) (s : String), s ∈ l ∨ s ∈ marksKeys acc →
      s ∈ marksKeys (l.foldl addKeyFalse acc) := by
  induction l with
  | nil =>
    intro acc s h
    rcases h with h | h
    · cases h
    · exact h
  | cons a rest ih =>
    intro acc s h
    rw [List.foldl_cons]
    rcases h with h | h
    · rcases List.mem_cons.mp h with rfl | h
      · exact ih _ s (Or.inr (addKeyFalse_key_self acc s))
      · exact ih _ s (Or.inl h)
    · exact ih _ s (Or.inr (addKeyFalse_keys_mono acc a s h))

/-- Every entry of the initial map comes from the filtered source list and
is `false`. -/
theorem foldl_addKeyFalse_sub (l : List String) :
    ∀ (acc : Marks) (p : String × Bool), p ∈ l.foldl addKeyFalse acc →
      p ∈ acc ∨ (p.1 ∈ l ∧ p.2 = false) := by
  induction l with
  | nil =>
    intro acc p h
    exact Or.inl h
  | cons a rest ih =>
    intro acc p h
    rw [List.foldl_cons] at h
    rcases ih _ p h with h | ⟨h1, h2⟩
    · unfold addKeyFalse at h
      by_cases hc : acc.any (fun q => q.1 == a)
      · rw [if_pos hc] at h
        exact Or.inl h
      · rw [if_neg hc] at h
        rcases List.mem_append.mp h with h | h
        · exact Or.inl h
        · simp only [List.mem_singleton] at h
          subst h
          exact Or.inr ⟨List.mem_cons_self _ _, rfl⟩
    · exact Or.inr ⟨List.mem_cons_of_mem _ h1, h2⟩

/-- C6: on an (enabled) library module whose late pass actually runs, the
pass either succeeds — and then every non-compiled source has been marked
matched by some `match_srcs` expansion — or, when expansion completed but
verification rejects, it aborts with a diagnostic naming an unmatched
non-compiled source of the module. -/
theorem lateTemplates_nonCompiled_consumed (env : LTEnv) (m : LTModule)
    (hf : m.featurable = true) (hlp : (lateProps m).isEmpty = false)
    (hlib : m.isLibrary = true) :
    (∀ props', applyLateTemplates env m = .ok props' →
      ∃ marks',
        expandProps env m m.props (initializeNonCompiledSourceMap m) =
          .ok (props', marks') ∧
        ∀ src ∈ m.sources, IsNotCompilableSource src = true →
          (src, true) ∈ marks') ∧
    (∀ props' marks',
      expandProps env m m.props (initializeNonCompiledSourceMap m) =
        .ok (props', marks') →
      ∀ msg, verifyMatchSources marks' = .error msg →
        applyLateTemplates env m = .error msg ∧
        ∃ src, src ∈ m.sources ∧ IsNotCompilableSource src = true ∧
          (src, false) ∈ marks' ∧
          msg = "Non-compiled source " ++ src ++ " is not used by match_srcs.") := by
  have hinit : initializeNonCompiledSourceMap m =
      (m.sources.filter IsNotCompilableSource).foldl addKeyFalse [] := by
    unfold initializeNonCompiledSourceMap
    rw [if_pos hlib]
  constructor
  · intro props' hok
    unfold applyLateTemplates at hok
    rw [hf] at hok
    simp only [Bool.not_true, Bool.false_eq_true, if_false, hlp] at hok
    cases hexp : expandProps env m m.props (initializeNonCompiledSourceMap m) with
    | error e => simp only [hexp] at hok; cases hok
    | ok q =>
      obtain ⟨props'0, marks'⟩ := q
      simp only [hexp] at hok
      cases hver : verifyMatchSources marks' with
      | error e => simp only [hver] at hok; cases hok
      | ok u =>
        simp only [hver] at hok
        cases hok
        refine ⟨marks', rfl, ?_⟩
        intro src hsrc hnc
        have hkey : src ∈ marksKeys (initializeNonCompiledSourceMap m) := by
          rw [hinit]
          refine mem_keys_foldl_addKeyFalse _ [] src (Or.inl ?_)
          rw [List.mem_filter]
          exact ⟨hsrc, hnc⟩
        have hstep := expandProps_step env m m.props _ _ _ hexp
        have hkey' : src ∈ marksKeys marks' := hstep.1 src hkey
        rcases List.mem_map.mp hkey' with ⟨p, hp, hps⟩
        have hall : ∀ x ∈ marks', ¬(!x.2) = true := by
          unfold verifyMatchSources at hver
          cases hfind : marks'.find? (fun p => !p.2) with
          | some q => rw [hfind] at hver; cases hver
          | none => exact List.find?_eq_none.mp hfind
        have hp2 : p.2 = true := by
          have := hall p hp
          simpa using this
        have : p = (src, true) := by
          cases p
          simp only at hps hp2
          rw [hps, hp2]
        rw [← this]
        exact hp
  · intro props' marks' hexp msg hver
    constructor
    · unfold applyLateTemplates
      rw [hf]
      simp only [Bool.not_true, Bool.false_eq_true, if_false, hlp, hexp, hver]
    · unfold verifyMatchSources at hver
      cases hfind : marks'.find? (fun p => !p.2) with
      | none => rw [hfind] at hver; cases hver
      | some p =>
        rw [hfind] at hver
        have hp2 : p.2 = false := by
          have := List.find?_some hfind
          simpa using this
        have hpmem : p ∈ marks' := List.mem_of_find?_eq_some hfind
        have hpfalse : (p.1, false) ∈ marks' := by
          have : p = (p.1, false) := by
            cases p
            simp only at hp2 ⊢
            rw [hp2]
          rw [← this]
          exact hpmem
        have hstep := expandProps_step env m m.props _ _ _ hexp
        have hpinit : (p.1, false) ∈ initializeNonCompiledSourceMap m :=
          hstep.2 p.1 hpfalse
        rw [hinit] at hpinit
        rcases foldl_addKeyFalse_sub _ [] _ hpinit with h | ⟨h1, h2⟩
        · cases h
        · rw [List.mem_filter] at h1
          refine ⟨p.1, h1.1, h1.2, hpfalse, ?_⟩
          cases hver
          rfl

/-- C5: `match_srcs(glob)` evaluates to the backend source-dir paths of
exactly the module sources whose tail matches the glob under `**/`, joined
with single spaces, marking each matched source; it aborts fatally (citing
the glob and the module name) if and only if no source matches. -/
theorem matchSources_claim (sourceDir : String) (sources : List String)
    (moduleName arg : String) (marks : Marks) :
    matchSources sourceDir sources moduleName arg marks =
      if (sources.filter (tailMatch arg)).isEmpty then
        .error ("Could not match '" ++ arg ++ "' for module '" ++ moduleName ++ "'")
      else
        .ok (strIntercalate " "
            ((sources.filter (tailMatch arg)).map (backendSourcePath sourceDir)),
          (sources.filter (tailMatch arg)).foldl setMark marks) :=
  matchSources_eq sourceDir sources moduleName arg marks

/-- Witness instance for C6 at a concrete library module: the successful
first run marks the non-compiled source `version.ld` as consumed. -/
theorem lateTemplates_nonCompiled_consumed_witness :
    ∃ marks',
      expandProps c2Env c2Mod1 c2Mod1.props
          (initializeNonCompiledSourceMap c2Mod1) =
        .ok (c2Mod2.props, marks') ∧
      ∀ src ∈ c2Mod1.sources, IsNotCompilableSource src = true →
        (src, true) ∈ marks' :=
  (lateTemplates_nonCompiled_consumed c2Env c2Mod1 rfl rfl rfl).1
    c2Mod2.props rfl

/-! ### Idempotence of the second run (claim C2, amended) -/

/-- The parse of a purely literal string. -/
def litOf : List Char → List Seg
  | [] => []
  | cs => [Seg.lit ⟨cs⟩]

theorem parseTF_literal :
    ∀ (cs : List Char) (fuel : Nat), cs.length ≤ fuel →
      hasOpener cs = false → parseTF fuel cs = some (litOf cs) := by
  intro cs
  induction cs with
  | nil => intro fuel _ _; cases fuel <;> rfl
  | cons c rest ih =>
    intro fuel hlen hop
    cases fuel with
    | zero => simp at hlen
    | succ f =>
      have hlen' : rest.length ≤ f := by
        simp only [List.length_cons] at hlen
        omega
      cases hrest : rest with
      | nil =>
        subst hrest
        by_cases hcb : c = lbrace
        · simp [parseTF, hcb, litOf, consLit]
        · simp [parseTF, hcb, litOf, consLit]
      | cons c2 rest2 =>
        subst hrest
        have hop2 : hasOpener (c2 :: rest2) = false := by
          unfold hasOpener at hop
          rcases Bool.or_eq_false_iff.mp hop with ⟨_, h2⟩
          exact h2
        have hrec : parseTF f (c2 :: rest2) = some (litOf (c2 :: rest2)) :=
          ih f hlen' hop2
        have hlit : litOf (c2 :: rest2) = [Seg.lit ⟨c2 :: rest2⟩] := rfl
        by_cases hcb : c = lbrace
        · have hc2 : ¬ c2 = lbrace := by
            unfold hasOpener at hop
            rcases Bool.or_eq_false_iff.mp hop with ⟨h1, _⟩
            intro hc2
            rw [hcb, hc2] at h1
            simp at h1
          simp only [parseTF, if_pos hcb, if_neg hc2]
          rw [hrec, hlit]
          simp [consLit, litOf]
        · simp only [parseTF, if_neg hcb]
          rw [hrec, hlit]
          simp [consLit, litOf]

theorem applyTemplateString_literal (env : LTEnv) (mn : String)
    (srcs : List String) (fs : FuncSet) (s : String) (marks : Marks)
    (h : hasOpener s.data = false) :
    applyTemplateString env mn srcs fs s marks = .ok (s, marks) := by
  unfold applyTemplateString parseTemplate
  rw [parseTF_literal s.data s.data.length (Nat.le_refl _) h]
  cases hs : s.data with
  | nil =>
    have : s = "" := by
      cases s
      simp only at hs
      rw [hs]
    rw [this]
    rfl
  | cons c rest =>
    have hmk : s = ⟨c :: rest⟩ := by
      cases s
      simp only at hs
      rw [hs]
    simp only [litOf, renderSegs]
    rw [hmk]
    simp [String.append_empty]

/-- A string slice with no template openers re-expands to itself. -/
theorem expandStrList_literal (env : LTEnv) (mn : String)
    (srcs : List String) (fs : FuncSet) :
    ∀ (l : List String) (marks : Marks),
      (∀ s ∈ l, hasOpener s.data = false) →
      expandStrList env mn srcs fs l marks = .ok (l, marks) := by
  intro l
  induction l with
  | nil => intro marks _; rfl
  | cons s rest ih =>
    intro marks hall
    have hs : hasOpener s.data = false := hall s (List.mem_cons_self _ _)
    have hrest : ∀ x ∈ rest, hasOpener x.data = false :=
      fun x hx => hall x (List.mem_cons_of_mem _ hx)
    simp only [expandStrList,
      applyTemplateString_literal env mn srcs fs s marks hs, ih marks hrest]

/-- The strings a field holds. -/
def fieldStrings : PropField → List String
  | .str s => [s]
  | .strList l => l
  | .optStr o => o.toList

/-- No string of the field contains a `{{` opener. -/
def NoOpenerField (pf : PropField) : Bool :=
  (fieldStrings pf).all (fun s => !hasOpener s.data)

/-- A slice field contains no empty string (other fields: trivially). -/
def NoEmptySlice : PropField → Bool
  | .strList l => !l.any (fun s => s == "")
  | _ => true

theorem expandField_literal_id (env : LTEnv) (mn : String)
    (srcs : List String) (fs : Option FuncSet) (pf : PropField) (marks : Marks)
    (hop : NoOpenerField pf = true) (hne : NoEmptySlice pf = true) :
    expandField env mn srcs fs pf marks = .ok (pf, marks) := by
  cases fs with
  | none => rfl
  | some fs =>
    cases pf with
    | str s =>
      have hs : hasOpener s.data = false := by
        simp [NoOpenerField, fieldStrings] at hop
        exact hop
      simp only [expandField]
      rw [applyTemplateString_literal env mn srcs fs s marks hs]
    | strList l =>
      have hall : ∀ s ∈ l, hasOpener s.data = false := by
        simp [NoOpenerField, fieldStrings, List.all_eq_true] at hop
        exact hop
      simp only [expandField]
      rw [expandStrList_literal env mn srcs fs l marks hall]
      have hany : l.any (fun s => s == "") = false := by
        simp only [NoEmptySlice] at hne
        cases h : l.any (fun s => s == "")
        · rfl
        · rw [h] at hne; cases hne
      simp [hany]
    | optStr o =>
      cases o with
      | none => rfl
      | some s =>
        have hs : hasOpener s.data = false := by
          simp [NoOpenerField, fieldStrings] at hop
          exact hop
        simp only [expandField]
        rw [applyTemplateString_literal env mn srcs fs s marks hs]

theorem expandProps_literal_id (env : LTEnv) (m : LTModule) :
    ∀ (props : List (String × PropField)) (marks : Marks),
      (∀ p ∈ props, funcmapFor m p.1 = none ∨
        (NoOpenerField p.2 = true ∧ NoEmptySlice p.2 = true)) →
      expandProps env m props marks = .ok (props, marks) := by
  intro props
  induction props with
  | nil => intro marks _; rfl
  | cons p rest ih =>
    intro marks hall
    obtain ⟨nm, pf⟩ := p
    have hfield : expandField env m.moduleName m.sources (funcmapFor m nm)
        pf marks = .ok (pf, marks) := by
      rcases hall (nm, pf) (List.mem_cons_self _ _) with h | ⟨h1, h2⟩
      · simp only at h
        rw [h]
        rfl
      · exact expandField_literal_id env m.moduleName m.sources _ pf marks h1 h2
    simp only [expandProps, hfield,
      ih marks (fun q hq => hall q (List.mem_cons_of_mem _ hq))]

/-- After a successful expansion, slice fields of funcmap-bearing
properties contain no empty strings (the pass strips them). -/
theorem expandProps_no_empty (env : LTEnv) (m : LTModule) :
    ∀ (props : List (String × PropField)) (marks : Marks)
      (props' : List (String × PropField)) (marks' : Marks),
      expandProps env m props marks = .ok (props', marks') →
      ∀ p ∈ props', funcmapFor m p.1 ≠ none → NoEmptySlice p.2 = true := by
  intro props
  induction props with
  | nil =>
    intro marks props' marks' h p hp
    cases h
    cases hp
  | cons q rest ih =>
    intro marks props' marks' h p hp
    obtain ⟨nm, pf⟩ := q
    simp only [expandProps] at h
    cases hf : expandField env m.moduleName m.sources (funcmapFor m nm) pf marks with
    | error e => simp only [hf] at h; cases h
    | ok r =>
      obtain ⟨pf', m1⟩ := r
      simp only [hf] at h
      cases hr : expandProps env m rest m1 with
      | error e => simp only [hr] at h; cases h
      | ok r2 =>
        obtain ⟨rest', mk⟩ := r2
        simp only [hr] at h
        cases h
        rcases List.mem_cons.mp hp with rfl | hp
        · intro hfm
          cases hfs : funcmapFor m nm with
          | none => exact absurd hfs hfm
          | some fsv =>
            rw [hfs] at hf
            cases pf with
            | str s =>
              simp only [expandField] at hf
              cases hts : applyTemplateString env m.moduleName m.sources fsv s marks with
              | error e => simp only [hts] at hf; cases hf
              | ok pr =>
                obtain ⟨s', mka⟩ := pr
                simp only [hts] at hf
                cases hf
                rfl
            | strList l =>
              simp only [expandField] at hf
              cases hel : expandStrList env m.moduleName m.sources fsv l marks with
              | error e => simp only [hel] at hf; cases hf
              | ok pr =>
                obtain ⟨l', mka⟩ := pr
                simp only [hel] at hf
                cases hf
                cases hany : l'.any (fun s => s == "") with
                | false => simp [NoEmptySlice, hany]
                | true =>
                  simp only [hany, if_true, NoEmptySlice]
                  rw [Bool.not_eq_true']
                  rw [List.any_eq_false]
                  intro x hx
                  rw [List.mem_filter] at hx
                  rcases hx with ⟨_, hx2⟩
                  simpa using hx2
            | optStr o =>
              cases o with
              | none =>
                simp only [expandField] at hf
                cases hf
                rfl
              | some s =>
                simp only [expandField] at hf
                cases hts : applyTemplateString env m.moduleName m.sources fsv s marks with
                | error e => simp only [hts] at hf; cases hf
                | ok pr =>
                  obtain ⟨s', mka⟩ := pr
                  simp only [hts] at hf
                  cases hf
                  rfl
        · exact ih m1 rest' _ hr p hp

/-- C2 (amended): the late-template pass is idempotent on modules with no
non-compiled sources: if the first run succeeds, its non-compiled-source
map is empty, and the expanded strings of funcmap-bearing properties
contain no `{{` opener, a second run succeeds and returns the same
property record.  (On a library module with non-compiled sources the
second run aborts: see the counterexample.) -/
theorem applyLateTemplates_idempotent (env : LTEnv) (m mQ : LTModule)
    (props' : List (String × PropField))
    (h1 : applyLateTemplates env m = .ok props')
    (h2 : initializeNonCompiledSourceMap m = [])
    (h3 : ∀ p ∈ props', funcmapFor m p.1 ≠ none → NoOpenerField p.2 = true)
    (hm : mQ = { m with props := props' }) :
    applyLateTemplates env mQ = .ok props' := by
  have hfe : mQ.featurable = m.featurable := by rw [hm]
  have hpr : mQ.props = props' := by rw [hm]
  have hlpe : lateProps mQ = lateProps m := by rw [hm]; rfl
  have hin : initializeNonCompiledSourceMap mQ = initializeNonCompiledSourceMap m := by
    rw [hm]; rfl
  have hfm : ∀ nm, funcmapFor mQ nm = funcmapFor m nm := by
    intro nm
    rw [hm]; rfl
  by_cases hfeat : m.featurable = true
  case neg =>
    have hff : m.featurable = false := by
      cases h : m.featurable
      · rfl
      · exact absurd h hfeat
    have h1' : props' = m.props := by
      unfold applyLateTemplates at h1
      rw [hff] at h1
      simp only [Bool.not_false, if_true] at h1
      cases h1
      rfl
    unfold applyLateTemplates
    rw [hfe, hff]
    simp only [Bool.not_false, if_true]
    rw [hpr]
  case pos =>
    by_cases hlp : (lateProps m).isEmpty = true
    case pos =>
      have h1' : props' = m.props := by
        unfold applyLateTemplates at h1
        rw [hfeat] at h1
        simp only [Bool.not_true, Bool.false_eq_true, if_false] at h1
        rw [if_pos hlp] at h1
        cases h1
        rfl
      unfold applyLateTemplates
      rw [hfe, hfeat]
      simp only [Bool.not_true, Bool.false_eq_true, if_false]
      rw [hlpe, if_pos hlp, hpr]
    case neg =>
      unfold applyLateTemplates at h1
      rw [hfeat] at h1
      simp only [Bool.not_true, Bool.false_eq_true, if_false] at h1
      rw [if_neg hlp] at h1
      cases hexp : expandProps env m m.props (initializeNonCompiledSourceMap m) with
      | error e => simp only [hexp] at h1; cases h1
      | ok q =>
        obtain ⟨props'0, marks'⟩ := q
        simp only [hexp] at h1
        cases hver : verifyMatchSources marks' with
        | error e => simp only [hver] at h1; cases h1
        | ok u =>
          simp only [hver] at h1
          cases h1
          have hnoempty := expandProps_no_empty env m m.props _ _ _ hexp
          have hid : expandProps env mQ props' [] = .ok (props', []) := by
            refine expandProps_literal_id env mQ props' [] ?_
            intro p hp
            rw [hfm p.1]
            by_cases hfmn : funcmapFor m p.1 = none
            · exact Or.inl hfmn
            · exact Or.inr ⟨h3 p hp hfmn, hnoempty p hp hfmn⟩
          unfold applyLateTemplates
          rw [hfe, hfeat]
          simp only [Bool.not_true, Bool.false_eq_true, if_false]
          rw [hlpe, if_neg hlp, hpr, hin, h2, hid]
          rfl

/-- Witness for C2 (amended) at a module whose only source is compiled:
the second run reproduces the first run's output. -/
theorem applyLateTemplates_idempotent_witness :
    applyLateTemplates c2Env
        ⟨"libbar", ["a.c"], true, true, ["Ldflags"], false, true,
          [("Ldflags", PropField.strList ["$(LOCAL_PATH)/a.c"])]⟩ =
      .ok [("Ldflags", PropField.strList ["$(LOCAL_PATH)/a.c"])] :=
  applyLateTemplates_idempotent c2Env
    ⟨"libbar", ["a.c"], true, true, ["Ldflags"], false, true,
      [("Ldflags", PropField.strList ["\x7b\x7bmatch_srcs \"a.c\"\x7d\x7d"])]⟩
    ⟨"libbar", ["a.c"], true, true, ["Ldflags"], false, true,
      [("Ldflags", PropField.strList ["$(LOCAL_PATH)/a.c"])]⟩
    [("Ldflags", PropField.strList ["$(LOCAL_PATH)/a.c"])]
    rfl rfl (by decide) rfl

/-! ## The library/binary fragment emitter (claims C7, C10)

Embeds `androidLibraryBuildAction` and `linksToGeneratedLibrary`.  The
module graph carries tagged dependency edges and node kinds;
`blueprint.ModuleContext.WalkDeps` enumerates dependency paths (pruned
when the visitor returns false), so `linksToGeneratedLibrary` is
reachability through link-tagged edges, written with fuel
`g.nodes.length` (sufficient on the acyclic graphs blueprint guarantees).

The emitted fragment is a list of `MkLine` writes in the exact order of
the `sb.WriteString` / `writeListAssignment` calls; `renderLine` maps each
write to the exact text.  `utils.Die` / `panic` sites become
`Except.error`; the fallible computations (`build_wrapper` check, ARM-mode
scan, the direct-shared-dep visit) are hoisted before the pure text
assembly, which is observationally equivalent because a Go `Die` discards
the partially built buffer.  The `internal/ccflags` package and the
toolchain are not under `src/`: their functions are opaque parameters of
the environment, modelled from the spec (flag predicates; a `-std=`
scanner; a `-marm`/`-mthumb` scanner that errors on conflict). -/

inductive DepTag
  | staticTag
  | sharedTag
  | wholeStaticTag
  | otherTag
deriving DecidableEq

def isLinkTag : DepTag → Bool
  | .staticTag => true
  | .sharedTag => true
  | .wholeStaticTag => true
  | .otherTag => false

inductive GKind
  | sharedLibraryKind (isForwarding : Bool)
  | generateSharedKind
  | generateStaticKind
  | externalLibKind
  | otherKind
deriving DecidableEq

def isGeneratedLib : GKind → Bool
  | .generateSharedKind => true
  | .generateStaticKind => true
  | _ => false

structure GNode where
  name : String
  kind : GKind
  deps : List (String × DepTag)
deriving DecidableEq

structure DepGraph where
  nodes : List GNode
deriving DecidableEq

def findNode (g : DepGraph) (n : String) : Option GNode :=
  g.nodes.find? (fun node => node.name == n)

/-- `linksToGeneratedLibrary`'s walk: from a module, follow only
static/shared/whole-static edges; a generated static or shared library
stops the walk with success; other link deps are walked deeper. -/
def reachGen (g : DepGraph) : Nat → String → Bool
  | 0, _ => false
  | fuel+1, n =>
    match findNode g n with
    | none => false
    | some node =>
      node.deps.any fun d =>
        isLinkTag d.2 &&
          (match findNode g d.1 with
           | none => false
           | some dn => isGeneratedLib dn.kind || reachGen g fuel d.1)

def linksToGeneratedLibrary (g : DepGraph) (n : String) : Bool :=
  reachGen g g.nodes.length n

/-- The claim-side notion: the module transitively links, via static,
shared, or whole-static link tags, a generated static or shared library. -/
inductive LinksGenerated (g : DepGraph) : String → Prop
  | direct {a : String} {node : GNode} {d : String} {tag : DepTag} {dn : GNode} :
      findNode g a = some node → (d, tag) ∈ node.deps → isLinkTag tag = true →
      findNode g d = some dn → isGeneratedLib dn.kind = true →
      LinksGenerated g a
  | step {a : String} {node : GNode} {d : String} {tag : DepTag} {dn : GNode} :
      findNode g a = some node → (d, tag) ∈ node.deps → isLinkTag tag = true →
      findNode g d = some dn → LinksGenerated g d →
      LinksGenerated g a

theorem findNode_mem {g : DepGraph} {n : String} {node : GNode}
    (h : findNode g n = some node) : node ∈ g.nodes ∧ node.name = n := by
  unfold findNode at h
  refine ⟨List.mem_of_find?_eq_some h, ?_⟩
  have h2 := List.find?_some h
  simpa using h2

theorem reachGen_sound (g : DepGraph) :
    ∀ (fuel : Nat) (n : String), reachGen g fuel n = true → LinksGenerated g n := by
  intro fuel
  induction fuel with
  | zero => intro n h; simp [reachGen] at h
  | succ fuel ih =>
    intro n h
    unfold reachGen at h
    cases hf : findNode g n with
    | none => rw [hf] at h; cases h
    | some node =>
      rw [hf] at h
      rw [List.any_eq_true] at h
      obtain ⟨d, hd, hcond⟩ := h
      rw [Bool.and_eq_true] at hcond
      obtain ⟨htag, hrest⟩ := hcond
      cases hfd : findNode g d.1 with
      | none => rw [hfd] at hrest; cases hrest
      | some dn =>
        rw [hfd] at hrest
        rw [Bool.or_eq_true] at hrest
        have hd' : (d.1, d.2) ∈ node.deps := by
          rw [Prod.mk.eta]
          exact hd
        rcases hrest with hgen | hrec
        · exact LinksGenerated.direct hf hd' htag hfd hgen
        · exact LinksGenerated.step hf hd' htag hfd (ih d.1 hrec)

theorem linksGenerated_reach (g : DepGraph) (rank : String → Nat)
    (hrank : ∀ node ∈ g.nodes, ∀ d ∈ node.deps, isLinkTag d.2 = true →
      rank d.1 < rank node.name) :
    ∀ (a : String), LinksGenerated g a → ∀ fuel, rank a ≤ fuel →
      reachGen g fuel a = true := by
  intro a h
  induction h with
  | @direct a node d tag dn hfn hdep htag hfd hgen =>
    intro fuel hfuel
    obtain ⟨hmem, hname⟩ := findNode_mem hfn
    have hlt : rank d < rank a := by
      have := hrank node hmem (d, tag) hdep htag
      rwa [hname] at this
    cases fuel with
    | zero => omega
    | succ f =>
      unfold reachGen
      rw [hfn, List.any_eq_true]
      exact ⟨(d, tag), hdep, by simp [htag, hfd, hgen]⟩
  | @step a node d tag dn hfn hdep htag hfd hsub ih =>
    intro fuel hfuel
    obtain ⟨hmem, hname⟩ := findNode_mem hfn
    have hlt : rank d < rank a := by
      have := hrank node hmem (d, tag) hdep htag
      rwa [hname] at this
    cases fuel with
    | zero => omega
    | succ f =>
      unfold reachGen
      rw [hfn, List.any_eq_true]
      refine ⟨(d, tag), hdep, ?_⟩
      have hr : reachGen g f d = true := ih f (by omega)
      simp [htag, hfd, hr]

/-! ### Fragment text -/

inductive BinType
  | binTypeStatic
  | binTypeShared
  | binTypeExecutable
deriving DecidableEq

inductive TgtType
  | tgtTypeTarget
  | tgtTypeHost
deriving DecidableEq

def classes : BinType → String
  | .binTypeStatic => "STATIC_LIBRARIES"
  | .binTypeShared => "SHARED_LIBRARIES"
  | .binTypeExecutable => "EXECUTABLES"

def rulePrefix : TgtType → String
  | .tgtTypeTarget => "BUILD_"
  | .tgtTypeHost => "BUILD_HOST_"

def ruleSuffix : BinType → String
  | .binTypeStatic => "STATIC_LIBRARY"
  | .binTypeShared => "SHARED_LIBRARY"
  | .binTypeExecutable => "EXECUTABLE"

/-- One write into the fragment builder: `raw` is a literal `WriteString`,
`listAssign` a `writeListAssignment` line, `multilibBoth` the
`LOCAL_MULTILIB:=both` write (its own constructor so claims can speak of
that exact line). -/
inductive MkLine
  | raw (s : String)
  | listAssign (varname : String) (entries : List String)
  | multilibBoth
deriving DecidableEq

def renderLine : MkLine → String
  | .raw s => s
  | .listAssign v entries => v ++ " := " ++ strIntercalate " " entries ++ "\n"
  | .multilibBoth => "LOCAL_MULTILIB:=both\n"

def renderFragment (lines : List MkLine) : String :=
  strJoin (lines.map renderLine)

/-- `writeListAssignment`: writes nothing for an empty list. -/
def writeListAssignment (varname : String) (entries : List String) : List MkLine :=
  if entries.length > 0 then [.listAssign varname entries] else []

def newlineSeparatedList (list : List String) : String :=
  " \\\n    " ++ strIntercalate " \\\n    " list ++ "\n"

/-- Modelled from the spec: `utils.PrefixDirs(paths, dir)` joins each path
onto the directory. -/
def prefixDirs (paths : List String) (dir : String) : List String :=
  paths.map (fun p => dir ++ "/" ++ p)

/-- The linker interface the emitter uses (external toolchain
abstraction). -/
structure EToolchain where
  keepSharedLibraryTransitivity : String
  setVersionScript : String → String

/-- Emitter environment: the config key, the `internal/ccflags` helpers
(modelled as opaque parameters: predicates for Android compile/link flags,
a `-std=` scanner returning the chosen standard or "", a `-marm`/`-mthumb`
scanner erroring on conflict), the name-map lookup (Go map zero value ""
when absent), and the two toolchains. -/
structure EmitEnv where
  targetToolchainClang : Bool
  androidCompileFlags : String → Bool
  androidLinkFlags : String → Bool
  getCompilerStandard : List String → String
  getArmMode : List String → Except String String
  androidModuleName : String → String
  targetTc : EToolchain
  hostTc : EToolchain

def specifyCompilerStandard (env : EmitEnv) (varname : String)
    (flags : List String) : String :=
  let std := env.getCompilerStandard flags
  if std != "" then varname ++ ":=" ++ std ++ "\n" else ""

def specifyArmMode (env : EmitEnv) (flags : List String) :
    Except String String :=
  match env.getArmMode flags with
  | .error e => .error e
  | .ok armMode =>
    .ok (if armMode != "" then "LOCAL_ARM_MODE:=" ++ armMode ++ "\n" else "")

/-- The per-module inputs of `androidLibraryBuildAction` (resolved
properties and context query results). -/
structure LibraryModule where
  name : String
  bt : BinType
  altName : String
  altShortName : String
  buildWrapper : Option String
  localIncludeDirs : List String
  exportLocalIncludeDirs : List String
  includeDirs : List String
  exportIncludeDirs : List String
  headerDirs : List String
  headerOutputs : List String
  generatedSourceModules : List String
  srcs : List String
  versionScript : Option String
  cflags : List String
  exportCflags : List String
  exportedCflags : List String
  cxxflags : List String
  conlyflags : List String
  sharedLibs : List String
  resolvedStaticLibs : List String
  wholeStaticLibs : List String
  headerLibs : List String
  exportHeaderLibs : List String
  reexportLibs : List String
  tags : List String
  owner : String
  proprietary : Bool
  stripModule : Bool
  targetType : TgtType
  installPath : Option (String × String)
  postInstallCmd : Option String
  postInstallTool : Option String
  postInstallArgs : List String
  installDepPhonyNames : List String
  ldflags : List String
  ldlibs : List String

/-- The copy-into-local pattern rule for one generated-source
dependency. -/
def generatedSourceLines (altName gm : String) : List MkLine :=
  let sources := "$(" ++ gm ++ "_OUTPUTS)"
  let sourcesDir := "$(" ++ gm ++ "_GEN_DIR)"
  let localSourceExpr := "$(subst " ++ sourcesDir ++
    ", $(local-generated-sources-dir), " ++ sources ++ ")"
  let localSources := "$(" ++ altName ++ "_" ++ gm ++ "_SRCS)"
  [ .raw (altName ++ "_" ++ gm ++ "_SRCS:=" ++ localSourceExpr ++ "\n"),
    .raw ("LOCAL_GENERATED_SOURCES+=" ++ localSources ++ "\n"),
    .raw (localSources ++ ": $(local-generated-sources-dir)" ++ "/%: " ++
      sourcesDir ++ "/%\n"),
    .raw "\tcp $< $@\n\n" ]

/-- `ctx.VisitDirectDepsIf(sharedDepTag, ...)`: the direct deps carrying
the shared tag. -/
def directSharedDeps (g : DepGraph) (name : String) : List (String × DepTag) :=
  match findNode g name with
  | none => []
  | some node => node.deps.filter (fun d => d.2 == DepTag.sharedTag)

/-- The forwarding-shared-library visit: a `sharedLibrary` dep contributes
its forwarding flag, generated and external shared libraries are ignored,
anything else is `utils.Die`. -/
def forwardingScan (g : DepGraph) : List (String × DepTag) → Bool → Except String Bool
  | [], acc => .ok acc
  | d :: rest, acc =>
    match findNode g d.1 with
    | none => .error (d.1 ++ " is not a shared library")
    | some dn =>
      match dn.kind with
      | .sharedLibraryKind fwd => forwardingScan g rest (acc || fwd)
      | .generateSharedKind => forwardingScan g rest acc
      | .externalLibKind => forwardingScan g rest acc
      | _ => .error (d.1 ++ " is not a shared library")

def computeForwarding (g : DepGraph) (name : String) : Except String Bool :=
  forwardingScan g (directSharedDeps g name) false

def tcFor (env : EmitEnv) (m : LibraryModule) : EToolchain :=
  if m.targetType == TgtType.tgtTypeTarget then env.targetTc else env.hostTc

def copyDtNeeded (tc : EToolchain) (hasForwardingLib : Bool) : String :=
  if hasForwardingLib then "-fuse-ld=bfd " ++ tc.keepSharedLibraryTransitivity
  else ""

/-- `isMultiLib`: target libraries, plus installable target binaries,
unless the module links a generated library. -/
def isMultiLibOf (g : DepGraph) (m : LibraryModule) : Bool :=
  ((m.targetType == TgtType.tgtTypeTarget) &&
    ((m.bt == BinType.binTypeShared) || (m.bt == BinType.binTypeStatic) ||
      m.installPath.isSome)) &&
  !(linksToGeneratedLibrary g m.name)

/-- The final ldflags list: Android-filtered flags, then the (possibly
empty) `copydtneeded` option, then the version-script option for shared
libraries and executables. -/
def ldflagsFinal (env : EmitEnv) (m : LibraryModule) (hasForwardingLib : Bool) :
    List String :=
  (m.ldflags.filter env.androidLinkFlags ++
    [copyDtNeeded (tcFor env m) hasForwardingLib]) ++
  (if m.bt == BinType.binTypeShared || m.bt == BinType.binTypeExecutable then
    (match m.versionScript with
     | some vs => [(tcFor env m).setVersionScript vs]
     | none => []) else [])

/-- `LOCAL_POST_INSTALL_CMD`: expand `${args}`, then `${tool}` and
`${out}` (Go iterates the two-key args map in unspecified order; distinct
placeholders make the replacements commute, fixed here as tool before
out). -/
def postInstallCmdLine (m : LibraryModule) : List MkLine :=
  match m.postInstallCmd with
  | none => []
  | some cmd =>
    let cmd1 := stringsReplace cmd "$\x7bargs\x7d" (strIntercalate " " m.postInstallArgs)
    let cmd2 := match m.postInstallTool with
      | some tool => stringsReplace cmd1 "$\x7btool\x7d" tool
      | none => cmd1
    let cmd3 := stringsReplace cmd2 "$\x7bout\x7d" "$(LOCAL_INSTALLED_MODULE)"
    [.raw ("LOCAL_POST_INSTALL_CMD=" ++ cmd3 ++ "\n")]

/-- The installation block (`getAndroidInstallPath` result is a module
input; `filepath.Join(base, rel)` is `base ++ "/" ++ rel`). -/
def installSection (env : EmitEnv) (m : LibraryModule) (isMulti : Bool) :
    List MkLine :=
  match m.installPath with
  | some (installBase, installRel) =>
    postInstallCmdLine m ++
    (if m.bt == BinType.binTypeExecutable then
      (if isMulti then
        [ .raw ("LOCAL_MODULE_PATH_32:=" ++ installBase ++ "/" ++ installRel ++ "\n"),
          .raw ("LOCAL_MODULE_PATH_64:=" ++ installBase ++ "/" ++ installRel ++ "64\n") ]
      else
        [ .raw ("LOCAL_MODULE_PATH:=" ++ installBase ++ "\n"),
          .raw ("LOCAL_MODULE_RELATIVE_PATH:=" ++ installRel ++ "\n") ] ++
        (if m.targetType == TgtType.tgtTypeTarget then
          [.raw "LOCAL_UNSTRIPPED_PATH:=$(TARGET_OUT_EXECUTABLES_UNSTRIPPED)\n"]
        else []))
    else
      [.raw ("LOCAL_MODULE_RELATIVE_PATH:=" ++ installRel ++ "\n")]) ++
    (let req := m.installDepPhonyNames.map env.androidModuleName
     if req.length > 0 then
       [.raw ("LOCAL_REQUIRED_MODULES:=" ++ newlineSeparatedList req)]
     else [])
  | none =>
    if m.targetType == TgtType.tgtTypeTarget && !(m.bt == BinType.binTypeShared) then
      [.raw "LOCAL_UNINSTALLABLE_MODULE:=true\n"]
    else []

/-- The `Reexport_libs` partition against the shared/static/header sets
(headers start from the exported header libs). -/
def reexportPartition (sharedLibs staticLibs headerLibs exportHeaderLibs
    mapped : List String) : List String × List String × List String :=
  mapped.foldl
    (fun acc lib =>
      if sharedLibs.contains lib then (acc.1 ++ [lib], acc.2.1, acc.2.2)
      else if staticLibs.contains lib then (acc.1, acc.2.1 ++ [lib], acc.2.2)
      else if headerLibs.contains lib then (acc.1, acc.2.1, acc.2.2 ++ [lib])
      else acc)
    ([], [], exportHeaderLibs)

/-- The pure text assembly of `androidLibraryBuildAction`, given the
results of the fallible steps (ARM-mode line, forwarding flag). -/
def emitLibraryLines (env : EmitEnv) (g : DepGraph) (m : LibraryModule)
    (armModeLine : String) (hasForwardingLib : Bool) : List MkLine :=
  let includes := prefixDirs m.localIncludeDirs "$(LOCAL_PATH)" ++
    prefixDirs m.exportLocalIncludeDirs "$(LOCAL_PATH)" ++
    m.includeDirs ++ m.exportIncludeDirs ++ m.headerDirs
  let exportIncludeDirs := m.exportIncludeDirs ++
    prefixDirs m.exportLocalIncludeDirs "$(LOCAL_PATH)"
  let nonCompiledDeps := m.srcs.filter IsNotCompilableSource
  let srcs := m.srcs.filter IsCompilableSource
  let additionalDeps := m.headerOutputs ++
    (if m.bt == BinType.binTypeShared || m.bt == BinType.binTypeExecutable then
      (match m.versionScript with | some vs => [vs] | none => []) else []) ++
    prefixDirs nonCompiledDeps "$(LOCAL_PATH)"
  let cflagsList := m.cflags ++ m.exportCflags ++ m.exportedCflags
  let sharedLibsM := m.sharedLibs.map env.androidModuleName
  let staticLibsM := m.resolvedStaticLibs.map env.androidModuleName
  let wholeStaticLibsM := m.wholeStaticLibs.map env.androidModuleName
  let exportHeaderLibsM := m.exportHeaderLibs.map env.androidModuleName
  let headerLibsM := m.headerLibs.map env.androidModuleName ++ exportHeaderLibsM
  let reex := reexportPartition sharedLibsM staticLibsM headerLibsM
    exportHeaderLibsM (m.reexportLibs.map env.androidModuleName)
  let isMulti := isMultiLibOf g m
  [ .raw "##########################\ninclude $(CLEAR_VARS)\n\n",
    .raw ("LOCAL_MODULE:=" ++ m.altName ++ "\n"),
    .raw ("LOCAL_MODULE_CLASS:=" ++ classes m.bt ++ "\n\n") ] ++
  (m.generatedSourceModules.map (generatedSourceLines m.altName)).flatten ++
  [ .raw (if env.targetToolchainClang then "LOCAL_CLANG := true\n"
      else "LOCAL_CLANG := false\n") ] ++
  writeListAssignment "LOCAL_SRC_FILES" srcs ++
  writeListAssignment "LOCAL_ADDITIONAL_DEPENDENCIES" additionalDeps ++
  writeListAssignment "LOCAL_C_INCLUDES" includes ++
  writeListAssignment "LOCAL_CFLAGS" (cflagsList.filter env.androidCompileFlags) ++
  writeListAssignment "LOCAL_CPPFLAGS" (m.cxxflags.filter env.androidCompileFlags) ++
  writeListAssignment "LOCAL_CONLYFLAGS" (m.conlyflags.filter env.androidCompileFlags) ++
  [ .raw (specifyCompilerStandard env "LOCAL_C_STD" (cflagsList ++ m.conlyflags)),
    .raw (specifyCompilerStandard env "LOCAL_CPP_STD" (cflagsList ++ m.cxxflags)),
    .raw armModeLine ] ++
  writeListAssignment "LOCAL_SHARED_LIBRARIES" sharedLibsM ++
  writeListAssignment "LOCAL_STATIC_LIBRARIES" staticLibsM ++
  writeListAssignment "LOCAL_WHOLE_STATIC_LIBRARIES" wholeStaticLibsM ++
  writeListAssignment "LOCAL_HEADER_LIBRARIES" headerLibsM ++
  writeListAssignment "LOCAL_EXPORT_SHARED_LIBRARY_HEADERS" reex.1 ++
  writeListAssignment "LOCAL_EXPORT_STATIC_LIBRARY_HEADERS" reex.2.1 ++
  writeListAssignment "LOCAL_EXPORT_HEADER_LIBRARY_HEADERS" reex.2.2 ++
  writeListAssignment "LOCAL_MODULE_TAGS" m.tags ++
  writeListAssignment "LOCAL_EXPORT_C_INCLUDE_DIRS" exportIncludeDirs ++
  (if m.proprietary then
    [ .raw ("LOCAL_MODULE_OWNER := " ++ m.owner ++ "\n"),
      .raw "LOCAL_PROPRIETARY_MODULE := true\n" ] else []) ++
  (if m.stripModule then [.raw "LOCAL_STRIP_MODULE := true\n"] else []) ++
  installSection env m isMulti ++
  (if isMulti then
    MkLine.multilibBoth ::
      (writeListAssignment "LOCAL_LDFLAGS_32" (ldflagsFinal env m hasForwardingLib) ++
       writeListAssignment "LOCAL_LDFLAGS_64" (ldflagsFinal env m hasForwardingLib))
  else writeListAssignment "LOCAL_LDFLAGS" (ldflagsFinal env m hasForwardingLib)) ++
  (if m.targetType == TgtType.tgtTypeTarget then
    writeListAssignment "LOCAL_LDLIBS" m.ldlibs
  else writeListAssignment "LOCAL_LDLIBS_$(HOST_OS)" m.ldlibs) ++
  [ .raw ("\ninclude $(" ++ rulePrefix m.targetType ++ ruleSuffix m.bt ++ ")\n") ]

/-- `androidLibraryBuildAction`: the `build_wrapper` check, the ARM-mode
scan, and the direct-shared-dep visit may `Die`; otherwise the fragment is
assembled. -/
def androidLibraryBuildAction (env : EmitEnv) (g : DepGraph) (m : LibraryModule) :
    Except String (List MkLine) :=
  if m.buildWrapper.isSome then .error "build_wrapper not supported on Android"
  else
    (specifyArmMode env
        ((m.cflags ++ m.exportCflags ++ m.exportedCflags) ++ m.conlyflags ++ m.cxxflags)).bind
      fun armModeLine =>
        (computeForwarding g m.name).bind fun hasForwardingLib =>
          .ok (emitLibraryLines env g m armModeLine hasForwardingLib)

theorem except_bind_ok {α β : Type} (x : Except String α)
    (f : α → Except String β) (b : β) (h : x.bind f = .ok b) :
    ∃ a, x = .ok a ∧ f a = .ok b := by
  cases x with
  | error e => cases h
  | ok a => exact ⟨a, rfl, h⟩

/-! ### Membership lemmas over the emitted line list -/

theorem mem_ite_list {α : Type} (x : α) (c : Prop) [Decidable c]
    (l1 l2 : List α) :
    (x ∈ (if c then l1 else l2)) ↔ (if c then x ∈ l1 else x ∈ l2) := by
  split <;> rfl

theorem mem_writeListAssignment (x : MkLine) (v : String) (es : List String) :
    x ∈ writeListAssignment v es ↔ 0 < es.length ∧ x = .listAssign v es := by
  unfold writeListAssignment
  split
  case isTrue h => simp [h]
  case isFalse h => simp [h]

theorem multilib_not_mem_writeListAssignment (v : String) (es : List String) :
    MkLine.multilibBoth ∉ writeListAssignment v es := by
  rw [mem_writeListAssignment]
  rintro ⟨-, h⟩
  cases h

theorem listAssign_empty_not_mem_writeListAssignment (v v' : String)
    (es : List String) : MkLine.listAssign v [] ∉ writeListAssignment v' es := by
  rw [mem_writeListAssignment]
  rintro ⟨hlen, h⟩
  injection h with h1 h2
  rw [← h2] at hlen
  simp at hlen

theorem onlyRaw_generatedSourceLines (altName gm : String) (x : MkLine)
    (hx : ∀ s, x ≠ MkLine.raw s) : x ∉ generatedSourceLines altName gm := by
  intro h
  unfold generatedSourceLines at h
  simp only [List.mem_cons, List.not_mem_nil, or_false] at h
  rcases h with h | h | h | h <;> exact hx _ h

theorem onlyRaw_generated_flatten (altName : String) (gms : List String)
    (x : MkLine) (hx : ∀ s, x ≠ MkLine.raw s) :
    x ∉ (gms.map (generatedSourceLines altName)).flatten := by
  intro h
  rw [List.mem_flatten] at h
  obtain ⟨l, hl, hmem⟩ := h
  rcases List.mem_map.mp hl with ⟨gm, -, rfl⟩
  exact onlyRaw_generatedSourceLines altName gm x hx hmem

theorem onlyRaw_installSection (env : EmitEnv) (m : LibraryModule) (b : Bool)
    (x : MkLine) (hx : ∀ s, x ≠ MkLine.raw s) : x ∉ installSection env m b := by
  intro h
  unfold installSection at h
  cases hip : m.installPath with
  | none =>
    simp only [hip] at h
    split at h
    · simp only [List.mem_singleton] at h
      exact hx _ h
    · exact absurd h (List.not_mem_nil x)
  | some p =>
    obtain ⟨base, rel⟩ := p
    simp only [hip] at h
    rcases List.mem_append.mp h with h | h
    · rcases List.mem_append.mp h with h | h
      · unfold postInstallCmdLine at h
        cases hpc : m.postInstallCmd with
        | none =>
          simp only [hpc] at h
          exact absurd h (List.not_mem_nil x)
        | some cmd =>
          simp only [hpc] at h
          simp only [List.mem_singleton] at h
          exact hx _ h
      · split at h
        · split at h
          · simp only [List.mem_cons, List.not_mem_nil, or_false] at h
            rcases h with h | h <;> exact hx _ h
          · rcases List.mem_append.mp h with h | h
            · simp only [List.mem_cons, List.not_mem_nil, or_false] at h
              rcases h with h | h <;> exact hx _ h
            · split at h
              · simp only [List.mem_singleton] at h
                exact hx _ h
              · exact absurd h (List.not_mem_nil x)
        · simp only [List.mem_singleton] at h
          exact hx _ h
    · split at h
      · simp only [List.mem_singleton] at h
        exact hx _ h
      · exact absurd h (List.not_mem_nil x)

theorem ldflagsFinal_length_pos (env : EmitEnv) (m : LibraryModule) (f : Bool) :
    0 < (ldflagsFinal env m f).length := by
  unfold ldflagsFinal
  simp

theorem empty_mem_ldflagsFinal (env : EmitEnv) (m : LibraryModule) :
    "" ∈ ldflagsFinal env m false := by
  unfold ldflagsFinal copyDtNeeded
  simp

/-- `LOCAL_MULTILIB:=both` is written iff `isMultiLib` holds. -/
theorem multilib_mem_emitLines (env : EmitEnv) (g : DepGraph)
    (m : LibraryModule) (a : String) (f : Bool) :
    MkLine.multilibBoth ∈ emitLibraryLines env g m a f ↔
      isMultiLibOf g m = true := by
  have hxm : ∀ s, MkLine.multilibBoth ≠ MkLine.raw s := fun s h => by cases h
  cases hmul : isMultiLibOf g m with
  | true =>
    simp only [iff_true]
    simp [emitLibraryLines, hmul, List.mem_append]
  | false =>
    simp only [Bool.false_eq_true, iff_false]
    intro hmem
    simp only [emitLibraryLines, hmul, List.mem_append, List.mem_cons,
      List.not_mem_nil, or_false, false_or, Bool.false_eq_true, if_false,
      mem_ite_list, ite_self, if_false_right, if_false_left, and_false,
      false_and, reduceCtorEq,
      multilib_not_mem_writeListAssignment,
      onlyRaw_generated_flatten m.altName m.generatedSourceModules _ hxm,
      onlyRaw_installSection env m _ _ hxm] at hmem

theorem ldflagsFinal_ne_nil (env : EmitEnv) (m : LibraryModule) (f : Bool) :
    ldflagsFinal env m f ≠ [] := by
  have h := ldflagsFinal_length_pos env m f
  intro he
  rw [he] at h
  simp at h

theorem ldflags_mem_emitLines_multi (env : EmitEnv) (g : DepGraph)
    (m : LibraryModule) (a : String) (f : Bool)
    (hmul : isMultiLibOf g m = true) :
    MkLine.listAssign "LOCAL_LDFLAGS_32" (ldflagsFinal env m f) ∈
      emitLibraryLines env g m a f ∧
    MkLine.listAssign "LOCAL_LDFLAGS_64" (ldflagsFinal env m f) ∈
      emitLibraryLines env g m a f := by
  have hlen := ldflagsFinal_length_pos env m f
  constructor <;>
    simp [emitLibraryLines, hmul, List.mem_append, mem_writeListAssignment, hlen]

theorem ldflags_mem_emitLines_nonmulti (env : EmitEnv) (g : DepGraph)
    (m : LibraryModule) (a : String) (f : Bool)
    (hmul : isMultiLibOf g m = false) :
    MkLine.listAssign "LOCAL_LDFLAGS" (ldflagsFinal env m f) ∈
      emitLibraryLines env g m a f := by
  have hlen := ldflagsFinal_length_pos env m f
  simp [emitLibraryLines, hmul, List.mem_append, mem_writeListAssignment, hlen]

theorem listAssign_empty_not_mem_emitLines (env : EmitEnv) (g : DepGraph)
    (m : LibraryModule) (a : String) (f : Bool) (v : String) :
    MkLine.listAssign v [] ∉ emitLibraryLines env g m a f := by
  have hx : ∀ s, MkLine.listAssign v [] ≠ MkLine.raw s := fun s h => by cases h
  intro hmem
  simp only [emitLibraryLines, List.mem_append, List.mem_cons, List.not_mem_nil,
    or_false, false_or, mem_ite_list, ite_self, if_false_right, if_false_left,
    and_false, false_and, reduceCtorEq,
    listAssign_empty_not_mem_writeListAssignment,
    onlyRaw_generated_flatten m.altName m.generatedSourceModules _ hx,
    onlyRaw_installSection env m _ _ hx] at hmem

theorem isMultiLibOf_iff (g : DepGraph) (m : LibraryModule)
    (rank : String → Nat)
    (hrank : ∀ node ∈ g.nodes, ∀ d ∈ node.deps, isLinkTag d.2 = true →
      rank d.1 < rank node.name)
    (hstart : rank m.name ≤ g.nodes.length) :
    isMultiLibOf g m = true ↔
      (m.targetType = TgtType.tgtTypeTarget ∧
        (m.bt = BinType.binTypeStatic ∨ m.bt = BinType.binTypeShared ∨
          (m.bt = BinType.binTypeExecutable ∧ m.installPath.isSome = true)) ∧
        ¬ LinksGenerated g m.name) := by
  have hlink : linksToGeneratedLibrary g m.name = true ↔ LinksGenerated g m.name :=
    ⟨reachGen_sound g _ m.name,
     fun h => linksGenerated_reach g rank hrank m.name h _ hstart⟩
  constructor
  · intro h
    unfold isMultiLibOf at h
    rw [Bool.and_eq_true] at h
    obtain ⟨h1, h2⟩ := h
    rw [Bool.and_eq_true] at h1
    obtain ⟨htgt, hbt⟩ := h1
    rw [Bool.or_eq_true, Bool.or_eq_true] at hbt
    refine ⟨by simpa using htgt, ?_, ?_⟩
    · rcases hbt with (h | h) | h
      · exact Or.inr (Or.inl (by simpa using h))
      · exact Or.inl (by simpa using h)
      · cases hb : m.bt with
        | binTypeStatic => exact Or.inl rfl
        | binTypeShared => exact Or.inr (Or.inl rfl)
        | binTypeExecutable => exact Or.inr (Or.inr ⟨rfl, h⟩)
    · intro hlg
      rw [← hlink] at hlg
      rw [hlg] at h2
      simp at h2
  · rintro ⟨htgt, hbt, hnl⟩
    unfold isMultiLibOf
    rw [Bool.and_eq_true]
    constructor
    · rw [Bool.and_eq_true]
      constructor
      · simp [htgt]
      · rw [Bool.or_eq_true, Bool.or_eq_true]
        rcases hbt with h | h | ⟨h, hi⟩
        · exact Or.inl (Or.inr (by simp [h]))
        · exact Or.inl (Or.inl (by simp [h]))
        · exact Or.inr hi
    · cases hl : linksToGeneratedLibrary g m.name
      · rfl
      · exact absurd (hlink.mp hl) hnl

/-- C7: a successful library/binary emission writes `LOCAL_MULTILIB:=both`
iff the module is target-variant and a static library, shared library, or
installable binary, and does not transitively link (via static, shared, or
whole-static tags) a generated static or shared library; and when it does,
the ldflags are split into `LOCAL_LDFLAGS_32` and `LOCAL_LDFLAGS_64`.
(`rank` is a topological certificate for the link edges: blueprint
guarantees an acyclic module graph.) -/
theorem emit_multilib_iff (env : EmitEnv) (g : DepGraph) (m : LibraryModule)
    (rank : String → Nat)
    (hrank : ∀ node ∈ g.nodes, ∀ d ∈ node.deps, isLinkTag d.2 = true →
      rank d.1 < rank node.name)
    (hstart : rank m.name ≤ g.nodes.length)
    (lines : List MkLine)
    (hok : androidLibraryBuildAction env g m = .ok lines) :
    (MkLine.multilibBoth ∈ lines ↔
      (m.targetType = TgtType.tgtTypeTarget ∧
        (m.bt = BinType.binTypeStatic ∨ m.bt = BinType.binTypeShared ∨
          (m.bt = BinType.binTypeExecutable ∧ m.installPath.isSome = true)) ∧
        ¬ LinksGenerated g m.name)) ∧
    (MkLine.multilibBoth ∈ lines →
      ∃ flags, flags ≠ [] ∧
        MkLine.listAssign "LOCAL_LDFLAGS_32" flags ∈ lines ∧
        MkLine.listAssign "LOCAL_LDFLAGS_64" flags ∈ lines) := by
  unfold androidLibraryBuildAction at hok
  by_cases hbw : m.buildWrapper.isSome = true
  · rw [if_pos hbw] at hok
    cases hok
  · rw [if_neg hbw] at hok
    obtain ⟨armLine, harm, hok⟩ := except_bind_ok _ _ _ hok
    obtain ⟨f, hfwd, hok⟩ := except_bind_ok _ _ _ hok
    have hlines : lines = emitLibraryLines env g m armLine f := (Except.ok.inj hok).symm
    rw [hlines]
    constructor
    · rw [multilib_mem_emitLines]
      exact isMultiLibOf_iff g m rank hrank hstart
    · intro hmem
      have hmul : isMultiLibOf g m = true :=
        (multilib_mem_emitLines env g m armLine f).mp hmem
      obtain ⟨h32, h64⟩ := ldflags_mem_emitLines_multi env g m armLine f hmul
      exact ⟨ldflagsFinal env m f, ldflagsFinal_ne_nil env m f, h32, h64⟩

/-- C10: list-valued `LOCAL_*` assignments are omitted entirely when the
list is empty (`writeListAssignment` writes nothing, and no emitted line
carries an empty list); except that the ldflags always receive an
assignment — `LOCAL_LDFLAGS`, or `LOCAL_LDFLAGS_32`/`_64` under multilib —
because the (possibly empty) forwarding-linker-option string is
unconditionally appended, so with no declared ldflags and no forwarding
dependency the assignment carries an empty element. -/
theorem emit_ldflags_claim (env : EmitEnv) (g : DepGraph) (m : LibraryModule)
    (lines : List MkLine)
    (hok : androidLibraryBuildAction env g m = .ok lines) :
    (∀ v : String, writeListAssignment v [] = []) ∧
    (∀ v, MkLine.listAssign v [] ∉ lines) ∧
    (∃ entries, entries ≠ [] ∧
      (isMultiLibOf g m = true →
        MkLine.listAssign "LOCAL_LDFLAGS_32" entries ∈ lines ∧
        MkLine.listAssign "LOCAL_LDFLAGS_64" entries ∈ lines) ∧
      (isMultiLibOf g m = false →
        MkLine.listAssign "LOCAL_LDFLAGS" entries ∈ lines) ∧
      (computeForwarding g m.name = .ok false → "" ∈ entries)) := by
  unfold androidLibraryBuildAction at hok
  by_cases hbw : m.buildWrapper.isSome = true
  · rw [if_pos hbw] at hok
    cases hok
  · rw [if_neg hbw] at hok
    obtain ⟨armLine, harm, hok⟩ := except_bind_ok _ _ _ hok
    obtain ⟨f, hfwd, hok⟩ := except_bind_ok _ _ _ hok
    have hlines : lines = emitLibraryLines env g m armLine f := (Except.ok.inj hok).symm
    rw [hlines]
    refine ⟨fun v => rfl, fun v => listAssign_empty_not_mem_emitLines env g m armLine f v, ?_⟩
    refine ⟨ldflagsFinal env m f, ldflagsFinal_ne_nil env m f, ?_, ?_, ?_⟩
    · intro hmul
      exact ldflags_mem_emitLines_multi env g m armLine f hmul
    · intro hmul
      exact ldflags_mem_emitLines_nonmulti env g m armLine f hmul
    · intro hf0
      rw [hfwd] at hf0
      injection hf0 with hf0
      rw [hf0]
      exact empty_mem_ldflagsFinal env m

/-! ### Concrete emitter instance for the witnesses -/

def c7env : EmitEnv :=
  { targetToolchainClang := true
    androidCompileFlags := fun _ => true
    androidLinkFlags := fun _ => true
    getCompilerStandard := fun _ => ""
    getArmMode := fun _ => .ok ""
    androidModuleName := fun s => s
    targetTc := { keepSharedLibraryTransitivity := "", setVersionScript := fun s => s }
    hostTc := { keepSharedLibraryTransitivity := "", setVersionScript := fun s => s } }

def c7graph : DepGraph := ⟨[⟨"libA", GKind.otherKind, []⟩]⟩

def c7rank : String → Nat := fun _ => 0

def c7mod : LibraryModule :=
  { name := "libA"
    bt := BinType.binTypeStatic
    altName := "libA"
    altShortName := "libA"
    buildWrapper := none
    localIncludeDirs := []
    exportLocalIncludeDirs := []
    includeDirs := []
    exportIncludeDirs := []
    headerDirs := []
    headerOutputs := []
    generatedSourceModules := []
    srcs := []
    versionScript := none
    cflags := []
    exportCflags := []
    exportedCflags := []
    cxxflags := []
    conlyflags := []
    sharedLibs := []
    resolvedStaticLibs := []
    wholeStaticLibs := []
    headerLibs := []
    exportHeaderLibs := []
    reexportLibs := []
    tags := []
    owner := ""
    proprietary := false
    stripModule := false
    targetType := TgtType.tgtTypeTarget
    installPath := none
    postInstallCmd := none
    postInstallTool := none
    postInstallArgs := []
    installDepPhonyNames := []
    ldflags := []
    ldlibs := [] }

theorem emit_multilib_iff_witness :
    (MkLine.multilibBoth ∈ emitLibraryLines c7env c7graph c7mod "" false ↔
      (c7mod.targetType = TgtType.tgtTypeTarget ∧
        (c7mod.bt = BinType.binTypeStatic ∨ c7mod.bt = BinType.binTypeShared ∨
          (c7mod.bt = BinType.binTypeExecutable ∧ c7mod.installPath.isSome = true)) ∧
        ¬ LinksGenerated c7graph c7mod.name)) ∧
    (MkLine.multilibBoth ∈ emitLibraryLines c7env c7graph c7mod "" false →
      ∃ flags, flags ≠ [] ∧
        MkLine.listAssign "LOCAL_LDFLAGS_32" flags ∈
          emitLibraryLines c7env c7graph c7mod "" false ∧
        MkLine.listAssign "LOCAL_LDFLAGS_64" flags ∈
          emitLibraryLines c7env c7graph c7mod "" false) :=
  emit_multilib_iff c7env c7graph c7mod c7rank (by decide) (by decide)
    (emitLibraryLines c7env c7graph c7mod "" false) rfl

theorem emit_ldflags_claim_witness :
    (∀ v : String, writeListAssignment v [] = []) ∧
    (∀ v, MkLine.listAssign v [] ∉ emitLibraryLines c7env c7graph c7mod "" false) ∧
    (∃ entries, entries ≠ [] ∧
      (isMultiLibOf c7graph c7mod = true →
        MkLine.listAssign "LOCAL_LDFLAGS_32" entries ∈
          emitLibraryLines c7env c7graph c7mod "" false ∧
        MkLine.listAssign "LOCAL_LDFLAGS_64" entries ∈
          emitLibraryLines c7env c7graph c7mod "" false) ∧
      (isMultiLibOf c7graph c7mod = false →
        MkLine.listAssign "LOCAL_LDFLAGS" entries ∈
          emitLibraryLines c7env c7graph c7mod "" false) ∧
      (computeForwarding c7graph c7mod.name = .ok false → "" ∈ entries)) :=
  emit_ldflags_claim c7env c7graph c7mod
    (emitLibraryLines c7env c7graph c7mod "" false) rfl

end Bob
